import Mathlib

/-!
Verification development for `updatecsv.py` (Jesync-LibreQoS-UpdateCSV).

The script maintains the LibreQoS `ShapedDevices.csv` table from MikroTik
router state (PPP secrets/active sessions, hotspot sessions, DHCP leases)
and a static device list.  This file embeds the script's pure logic:

* Python `dict`s become association lists (`Dict`) with Python's update
  semantics (overwrite in place, append new keys at the end);
* the canonical table (an `OrderedDict` keyed by `Circuit Name`) becomes
  an association list `Table`;
* `random.choices`-based id generation becomes an oracle `gen : Nat -> String`
  consulted at successive indices (a counter is threaded through the cycle);
* Python floats become exact scaled decimals (`DNum`, a natural number
  over a power of ten), so every computation stays in `Nat` and evaluates
  inside the kernel; rationals appear only in specification-level
  statements.  The two float constants of the source
  (`MAX_RATE_PERCENTAGE = 1`, `MIN_RATE_PERCENTAGE = 0.3`) are modelled
  as `1` and `3/10`: for every input the script actually produces
  (decimal strings with at most two fractional digits, below `10^16`),
  `int(x * float(0.3))` agrees with `Int.floor (x * 3/10)` because the
  relative error of the double nearest `0.3` (about `3.7e-17`) is far
  below the distance from any reachable product to the nearest integer
  boundary;
* `str(float)` for the values reachable here (results of `round(_, 2)`
  below `10^16`) is the shortest decimal rendering, reproduced exactly by
  `pyFloatStr`;
* file/network I/O becomes explicit inputs: each router carries an
  `Option RouterSnap` (`none` = `connect_to_router` returned `None`), a
  failed `get_resource_data` call is an empty list, and the static JSON is
  a list of raw dictionaries.
-/

namespace UpdateCsv

/-- Python `dict` lookup `d.get(k)` on an insertion-ordered association
list (keys are kept unique by `aset`). -/
def aget {α : Type} (d : List (String × α)) (k : String) : Option α :=
  match d with
  | [] => none
  | (k', v) :: rest => if k' = k then some v else aget rest k

/-- Python `dict` assignment `d[k] = v`: overwrite in place if the key
exists, otherwise append at the end. -/
def aset {α : Type} (d : List (String × α)) (k : String) (v : α) :
    List (String × α) :=
  match d with
  | [] => [(k, v)]
  | (k', v') :: rest =>
      if k' = k then (k', v) :: rest else (k', v') :: aset rest k v

/-- A Python `dict` of string keys and values (one device entry / one raw
static-device record). -/
abbrev Dict := List (String × String)

/-- The canonical table: `Circuit Name -> entry`, insertion ordered
(`OrderedDict` in the source). -/
abbrev Table := List (String × Dict)

/-! ### String helpers mirroring the Python string methods used -/

/-- Source `value_str.strip()` -/
def pyStrip (l : List Char) : List Char :=
  ((l.dropWhile Char.isWhitespace).reverse.dropWhile Char.isWhitespace).reverse

/-- Source `s.split(sep)` for a one-character separator: splits at every
occurrence, keeping empty parts (`"a//b".split("/") == ["a","","b"]`). -/
def splitOnChar (sep : Char) : List Char → List (List Char)
  | [] => [[]]
  | c :: rest =>
      let r := splitOnChar sep rest
      if c = sep then [] :: r
      else
        match r with
        | [] => [[c]]
        | p :: ps => (c :: p) :: ps

/-- Helper for `pySplitWs`: `acc` holds the current word, reversed. -/
def pySplitWsAux (acc : List Char) : List Char → List (List Char)
  | [] => if acc.isEmpty then [] else [acc.reverse]
  | c :: rest =>
      if c.isWhitespace then
        if acc.isEmpty then pySplitWsAux [] rest
        else acc.reverse :: pySplitWsAux [] rest
      else pySplitWsAux (c :: acc) rest

/-- Source `s.split()` with no argument: splits on runs of whitespace and drops
empty parts (so `"".split() == []`). -/
def pySplitWs (l : List Char) : List (List Char) :=
  pySplitWsAux [] l

/-- Source `value_str.replace('.', '', 1)`: drop the first `'.'` only. -/
def removeFirstDot : List Char → List Char
  | [] => []
  | c :: rest => if c = '.' then rest else c :: removeFirstDot rest

/-- Source `s.replace('.', '', 1).isdigit()`: the guard under which the source
trusts `float(s)` (digits with at most one embedded dot, nonempty). -/
def isNumStr (s : String) : Bool :=
  let t := removeFirstDot s.data
  ¬ t.isEmpty ∧ t.all Char.isDigit

def digitsToNat (l : List Char) : Nat :=
  l.foldl (fun a c => 10 * a + (c.toNat - 48)) 0

/-- A nonnegative decimal number `num / 10 ^ e`, the exact value of the
Python floats flowing through the rate pipeline (every float here is
parsed from a decimal string and only scaled by powers of ten, so this
representation is exact; kept in integers so that everything computes). -/
structure DNum where
  num : ℕ
  e : ℕ
deriving DecidableEq

/-- The rational value of a `DNum`. -/
def DNum.toQ (d : DNum) : ℚ := (d.num : ℚ) / (10 : ℚ) ^ d.e

/-- Value of a decimal string accepted by `isNumStr` (Python `float(s)`,
modelled exactly). -/
def parseDec (l : List Char) : DNum :=
  let ip := l.takeWhile (fun c => c ≠ '.')
  let rest := l.dropWhile (fun c => c ≠ '.')
  let fp := match rest with
    | [] => []
    | _ :: r => r
  ⟨digitsToNat ip * 10 ^ fp.length + digitsToNat fp, fp.length⟩

/-- Round `a / b` (with `b > 0`) half to even to a natural number,
Python 3's `round` on the exact value.  (A binary-float tie that is not an
exact decimal tie does not arise for the values reachable here; an input
such as `"12.345"`, whose nearest double sits just above the decimal tie,
is the one corner where CPython and this exact model part ways.) -/
def roundHalfEvenDiv (a b : ℕ) : ℕ :=
  let q := a / b
  let r := a % b
  if 2 * r < b then q
  else if b < 2 * r then q + 1
  else if q % 2 = 0 then q else q + 1

/-- Source `round(x, 2)`, returned scaled by 100 (so the result is
`100 * round(value, 2)`, an exact natural number). -/
def round2 (d : DNum) : ℕ :=
  roundHalfEvenDiv (d.num * 100) (10 ^ d.e)

/-- Round half to even on rationals: the specification-level counterpart
of `roundHalfEvenDiv`. -/
def roundHalfEvenQ (q : ℚ) : ℤ :=
  let f := ⌊q⌋
  let r := q - (f : ℚ)
  if r < 1/2 then f
  else if 1/2 < r then f + 1
  else if 2 ∣ f then f else f + 1

/-- Source `str(f)` for the nonnegative floats produced by `round(_, 2)` (the
argument is the value scaled by 100): shortest decimal form with at least
one fractional digit (`str(10.0) = "10.0"`, `str(0.5) = "0.5"`,
`str(0.07) = "0.07"`). -/
def pyFloatStr (k : ℕ) : String :=
  let ip := k / 100
  let fr := k % 100
  if fr = 0 then toString ip ++ ".0"
  else if fr % 10 = 0 then toString ip ++ "." ++ toString (fr / 10)
  else if fr < 10 then toString ip ++ ".0" ++ toString fr
  else toString ip ++ "." ++ toString fr

/-! ### Configuration constants (source lines 27-32) -/

def SCAN_INTERVAL : ℕ := 120
def MIN_RATE_PERCENTAGE : ℚ := 3/10
def MAX_RATE_PERCENTAGE : ℚ := 1
def DEFAULT_BANDWIDTH : ℕ := 2000

/-! ### Bandwidth conversion (source lines 201-270) -/

/-- The regex `(\d+(?:\.\d+)?)([kmgKMG])?` applied with `re.match`:
a prefix of digits, an optional dot-digits part, then an optional unit
letter taken only if it immediately follows; trailing text is ignored.
Returns the numeric value and the lower-cased unit. -/
def matchNum (l : List Char) : Option (DNum × Option Char) :=
  let ds := l.takeWhile Char.isDigit
  if ds.isEmpty then none
  else
    let rest := l.drop ds.length
    let fs := match rest with
      | '.' :: r => r.takeWhile Char.isDigit
      | _ => []
    let rest' := if fs.isEmpty then rest else rest.drop (fs.length + 1)
    let q : DNum := ⟨digitsToNat ds * 10 ^ fs.length + digitsToNat fs, fs.length⟩
    let unit := match rest' with
      | c :: _ =>
          if c ∈ (['k', 'm', 'g', 'K', 'M', 'G'] : List Char)
          then some c.toLower else none
      | [] => none
    some (q, unit)

/-- The unit arithmetic of `convert_to_mbps`: `number / 1000` for `k`,
`number * 1000` for `g`, `number` otherwise — exact on `DNum`. -/
def applyUnit (n : DNum) : Option Char → DNum
  | some u =>
      if u = 'k' then ⟨n.num, n.e + 3⟩
      else if u = 'g' then ⟨n.num * 1000, n.e⟩
      else n
  | none => n

/-- Source `convert_to_mbps` (source lines 201-227).  Returns the decimal string
the Python function returns (`str(round(_, 2))`, or the literal `"0"` on
the guard/no-match branches).  The `except` branch is unreachable once the
regex has matched, since `float` cannot fail on the matched group. -/
def convert_to_mbps (value_str : String) : String :=
  if value_str = "" ∨ value_str = "0" then "0"
  else
    match matchNum (pyStrip value_str.data) with
    | none => "0"
    | some (n, unit) =>
        match unit with
        | none => pyFloatStr (round2 n)
        | some u =>
            if u = 'k' then pyFloatStr (round2 ⟨n.num, n.e + 3⟩)
            else if u = 'm' then pyFloatStr (round2 n)
            else if u = 'g' then pyFloatStr (round2 ⟨n.num * 1000, n.e⟩)
            else pyFloatStr (round2 n)

/-- Source `parse_rate_limit` (source lines 229-244).  `none` models passing
`None`; the `("3","3")` branches are the `except` arm reached by
`IndexError` (`split()[0]` on an all-whitespace string) or `ValueError`
(unpacking `first_rate.split('/')` into two names fails). -/
def parse_rate_limit (rate_limit : Option String) : String × String :=
  match rate_limit with
  | none => ("0", "0")
  | some s =>
      if s = "" ∨ s = "0/0" then ("0", "0")
      else
        match pySplitWs s.data with
        | [] => ("3", "3")
        | first :: _ =>
            match splitOnChar '/' first with
            | [rx, tx] =>
                (convert_to_mbps (String.mk rx), convert_to_mbps (String.mk tx))
            | _ => ("3", "3")

/-- Numeric value the source's `float(rx) if rx.replace('.','',1).isdigit() else 0`
assigns to a rate string. -/
def floatOrZero (s : String) : DNum :=
  if isNumStr s then parseDec s.data else ⟨0, 0⟩

/-- Source `calculate_max_rates` (source lines 246-257):
`int(x * MAX_RATE_PERCENTAGE)` with `MAX_RATE_PERCENTAGE = 1`, evaluated
exactly on `x = num / 10^e` as `num / 10^e` in natural division
(truncation of a nonnegative value = floor). -/
def calculate_max_rates (rx tx : String) : String × String :=
  let rx_float := floatOrZero rx
  let tx_float := floatOrZero tx
  let calculated_max_rx := rx_float.num / 10 ^ rx_float.e
  let calculated_max_tx := tx_float.num / 10 ^ tx_float.e
  (toString (max calculated_max_rx 2), toString (max calculated_max_tx 2))

/-- Source `calculate_min_rates` (source lines 259-270):
`int(x * MIN_RATE_PERCENTAGE)` with `MIN_RATE_PERCENTAGE = 0.3`, evaluated
exactly as `3 * num / 10^(e+1)`.  The double nearest 0.3 carries a relative
error of about `3.7e-17`, far below the distance from any product reachable
here to the next integer, so the double computation truncates identically
to the exact one. -/
def calculate_min_rates (max_rx max_tx : String) : String × String :=
  let rx_float := floatOrZero max_rx
  let tx_float := floatOrZero max_tx
  let calculated_min_rx := 3 * rx_float.num / 10 ^ (rx_float.e + 1)
  let calculated_min_tx := 3 * tx_float.num / 10 ^ (tx_float.e + 1)
  (toString (max calculated_min_rx 2), toString (max calculated_min_tx 2))

/-! ### Device entry creation and update (source lines 319-344)

`generate_short_id` draws 8 random alphanumeric characters; randomness is
modelled by an oracle `gen : Nat -> String` consulted at successive
indices, with the next index threaded through the cycle as `counter`. -/

/-- Source `create_new_entry` (source lines 319-335); `cid`/`did` are the two
freshly generated ids.  Key order is the source's literal order. -/
def create_new_entry (cid did code router_name entry_type mac ipv4 : String) :
    Dict :=
  [("Circuit ID", cid),
   ("Device ID", did),
   ("Circuit Name", code),
   ("Device Name", code),
   ("MAC", mac),
   ("IPv4", ipv4),
   ("IPv6", ""),
   ("Parent Node", entry_type ++ "-" ++ router_name),
   ("Comment", entry_type),
   ("Download Max Mbps", "0"),
   ("Upload Max Mbps", "0"),
   ("Download Min Mbps", "0"),
   ("Upload Min Mbps", "0")]

/-- Source `update_entry_values` (source lines 337-344): field-by-field update,
returning the new entry and whether anything changed (the loop's `changed`
flag is true as soon as one field differed). -/
def update_entry_values (entry : Dict) : Dict → Dict × Bool
  | [] => (entry, false)
  | kv :: rest =>
      if aget entry kv.1 = some kv.2 then update_entry_values entry rest
      else ((update_entry_values (aset entry kv.1 kv.2) rest).1, true)

/-! ### The network-configuration tree (`network.json`) -/

/-- One node of `network.json`: bandwidths, a `type` tag and a children
map. -/
inductive NNode where
  | mk (dl ul : ℕ) (ty : String) (children : List (String × NNode))

abbrev NCfg := List (String × NNode)

def siteNode (children : List (String × NNode)) : NNode :=
  .mk DEFAULT_BANDWIDTH DEFAULT_BANDWIDTH "site" children

/-! ### Router configuration and per-cycle snapshot inputs -/

/-- The fields of one `config.json` router object that `updatecsv.py`
reads, with the source's `get` defaults.  The `hs…Str`/`dhcp…Str` limits
are the `str()` images of the JSON numbers (the source stores
`str(download_limit)` into entries).  `manualPool` records a
manual-parent-pool key that a configuration file may carry: the source
never reads any such key, so no processing below consults it. -/
structure RouterCfg where
  name : String
  pppoeEnabled : Bool := false
  perPlanNode : Bool := false
  hotspotEnabled : Bool := false
  includeMac : Bool := true
  hsDownloadStr : String := "10"
  hsUploadStr : String := "10"
  dhcpEnabled : Bool := false
  dhcpDownloadStr : String := "1000"
  dhcpUploadStr : String := "1000"
  dhcpServers : List String := ["dhcp1"]
  manualPool : List String := []
deriving DecidableEq

/-- One `/ppp/secret` record (fields the source reads; `callerId` and
`address` are modelled after the `get(_, '')` default, `rateLimit` and
`profile` keep presence information because the defaults are applied at
the use site). -/
structure PppSecretR where
  name : String
  callerId : String := ""
  address : String := ""
  rateLimit : Option String := none
  profile : Option String := none
deriving DecidableEq

/-- One `/ppp/active` record; `address = none` models a record without an
`'address'` key (such sessions are skipped). -/
structure PppActiveR where
  name : String
  address : Option String := none
deriving DecidableEq

/-- One `/ppp/profile` record; `comment = none` models a profile without a
comment key. -/
structure PppProfileR where
  name : String
  comment : Option String := none
deriving DecidableEq

/-- One `/ip/hotspot/active` record. -/
structure HsUserR where
  macAddress : String := ""
  address : String := ""
  user : String := ""
deriving DecidableEq

/-- One `/ip/dhcp-server/lease` record. -/
structure LeaseR where
  macAddress : String := ""
  address : String := ""
  hostName : String := ""
  server : String := ""
deriving DecidableEq

/-- What one connected router returns over the API this cycle.  A failed
`get_resource_data` call yields `[]`, as in the source. -/
structure RouterSnap where
  secrets : List PppSecretR := []
  active : List PppActiveR := []
  profiles : List PppProfileR := []
  hotspotActive : List HsUserR := []
  leases : List LeaseR := []
deriving DecidableEq

/-- A configured router together with this cycle's connection outcome
(`conn = none`: `connect_to_router` returned `None`). -/
structure RouterInput where
  cfg : RouterCfg
  conn : Option RouterSnap
deriving DecidableEq

/-- Build a Python dict-comprehension `{key(x): x for x in l}` as an
insertion-ordered association list (later duplicates overwrite in
place). -/
def buildAssoc {α : Type} (key : α → String) (l : List α) :
    List (String × α) :=
  l.foldl (fun acc x => aset acc (key x) x) []

/-- The `active_secrets` dict of `process_pppoe_users` (source lines
363-366): secrets that are active and carry an address, in secrets order,
with the address taken from the active session. -/
def activeSecrets (secrets : List PppSecretR) (active : List PppActiveR) :
    List (String × PppSecretR) :=
  let sd := buildAssoc (·.name) secrets
  let ad := buildAssoc (·.name) active
  sd.filterMap (fun p =>
    match aget ad p.1 with
    | some a =>
        match a.address with
        | some addr => some (p.1, { p.2 with address := addr })
        | none => none
    | none => none)

/-- Source `get_profile_rate_limits` (source lines 275-289): the profile's
comment is the rate limit, with `'50M/50M'` as fallback. -/
def get_profile_rate_limits (profiles : List PppProfileR)
    (profile_name : String) : String :=
  match profiles.filter (fun p => p.name = profile_name) with
  | [] => "50M/50M"
  | p :: _ => p.comment.getD "50M/50M"

/-- Source `mac.replace(':', '')` -/
def stripColons (s : String) : String :=
  String.mk (s.data.filter (fun c => c ≠ ':'))

/-- The parent node `process_pppoe_users` assigns to a circuit: the
per-plan node when `per_plan_node` is set, else the router's PPP site
(source lines 394-397). -/
def pppParent (r : RouterCfg) (sec : PppSecretR) : String :=
  if r.perPlanNode then "PLAN-" ++ sec.profile.getD "default" ++ "-" ++ r.name
  else "PPP-" ++ r.name

/-- The circuit name `process_hotspot_users` derives for a session
(source lines 441-449; `none` = the session is skipped). -/
def hsCode (r : RouterCfg) (user : HsUserR) : Option String :=
  if r.includeMac ∧ user.macAddress ≠ "" then
    some ("HS-" ++ stripColons user.macAddress)
  else if user.user = "" then none
  else some ("HS-" ++ user.user)

/-- The circuit name `process_dhcp_leases` derives for a lease
(source lines 496-504; `none` = the lease is skipped). -/
def dhcpCode (lease : LeaseR) : Option String :=
  if lease.macAddress = "" then none
  else if lease.hostName ≠ "" then some ("DHCP-" ++ lease.hostName)
  else some ("DHCP-" ++ stripColons lease.macAddress)

/-- The circuit name of a raw static device record (source lines 555-558;
`none` = skipped: no `Circuit Name` key or an empty one). -/
def staticCode (device : Dict) : Option String :=
  match aget device "Circuit Name" with
  | none => none
  | some cn => if cn = "" then none else some cn

/-- State threaded through one source-processor: the users observed so
far, the per-processor `updated` flag, and the mutated table / network
config / id counter. -/
structure PState where
  users : List String
  updated : Bool
  table : Table
  ncfg : NCfg
  counter : ℕ

/-- Source `addPlanNode`: the `network_config` mutation of `process_pppoe_users`
(source lines 398-409) installing a `PLAN-…` child under the router. -/
def addPlanNode (ncfg : NCfg) (routerName profileNode : String) : NCfg :=
  match aget ncfg routerName with
  | none => ncfg
  | some (.mk dl ul ty ch) =>
      if (aget ch profileNode).isSome then ncfg
      else
        aset ncfg routerName
          (.mk dl ul ty
            (ch ++ [(profileNode,
              .mk DEFAULT_BANDWIDTH DEFAULT_BANDWIDTH "plan" [])]))

/-- Second half of one iteration of the `for code, secret in
active_secrets.items()` loop of `process_pppoe_users` (source lines
381-421), after the entry was fetched or created: rate computation,
parent resolution (with the per-plan network-config insertion), and the
field update. -/
def pppFinish (useProfile : Bool) (r : RouterCfg)
    (profiles : List PppProfileR) (st : PState) (code : String)
    (secret : PppSecretR) (entry : Dict) (table : Table) (updated : Bool)
    (counter : ℕ) : PState :=
  let profile_name := secret.profile.getD "default"
  let rate_limit :=
    if useProfile then get_profile_rate_limits profiles profile_name
    else secret.rateLimit.getD "50M/50M"
  let rxtx := parse_rate_limit (some rate_limit)
  let maxs := calculate_max_rates rxtx.1 rxtx.2
  let mins := calculate_min_rates maxs.1 maxs.2
  let parentCfg :=
    if r.perPlanNode then
      let pn := "PLAN-" ++ profile_name ++ "-" ++ r.name
      (pn, addPlanNode st.ncfg r.name pn)
    else ("PPP-" ++ r.name, st.ncfg)
  let new_values : Dict :=
    [("Parent Node", parentCfg.1),
     ("MAC", secret.callerId),
     ("IPv4", secret.address),
     ("Download Max Mbps", maxs.1),
     ("Upload Max Mbps", maxs.2),
     ("Download Min Mbps", mins.1),
     ("Upload Min Mbps", mins.2)]
  let upd := update_entry_values entry new_values
  { users := st.users ++ [code],
    updated := updated || upd.2,
    table := aset table code upd.1,
    ncfg := parentCfg.2,
    counter := counter }

/-- One iteration of the `for code, secret in active_secrets.items()` loop
of `process_pppoe_users` (source lines 371-421): fetch or create the
entry, then apply `pppFinish`. -/
def pppStep (useProfile : Bool) (gen : ℕ → String) (r : RouterCfg)
    (profiles : List PppProfileR) (st : PState) (item : String × PppSecretR) :
    PState :=
  match aget st.table item.1 with
  | some e =>
      pppFinish useProfile r profiles st item.1 item.2 e st.table
        st.updated st.counter
  | none =>
      let e := create_new_entry (gen st.counter) (gen (st.counter + 1))
        item.1 r.name "PPP" item.2.callerId item.2.address
      pppFinish useProfile r profiles st item.1 item.2 e
        (aset st.table item.1 e) true (st.counter + 2)

/-- Source `process_pppoe_users` (source lines 349-423). -/
def process_pppoe_users (useProfile : Bool) (gen : ℕ → String)
    (r : RouterCfg) (snap : RouterSnap) (table : Table) (ncfg : NCfg)
    (counter : ℕ) : PState :=
  if ¬ r.pppoeEnabled then
    { users := [], updated := false, table := table, ncfg := ncfg,
      counter := counter }
  else
    (activeSecrets snap.secrets snap.active).foldl
      (pppStep useProfile gen r snap.profiles)
      { users := [], updated := false, table := table, ncfg := ncfg,
        counter := counter }

/-- Second half of one iteration of the hotspot-user loop (source lines
459-471): hotspot rates come straight from the router's configured limits
(no `calculate_max_rates` call), minimum rates are derived from them. -/
def hsFinish (r : RouterCfg) (st : PState) (code mac ip : String)
    (entry : Dict) (table : Table) (updated : Bool) (counter : ℕ) : PState :=
  let mins := calculate_min_rates r.hsDownloadStr r.hsUploadStr
  let new_values : Dict :=
    [("Parent Node", "HS-" ++ r.name),
     ("MAC", mac),
     ("IPv4", ip),
     ("Download Max Mbps", r.hsDownloadStr),
     ("Upload Max Mbps", r.hsUploadStr),
     ("Download Min Mbps", mins.1),
     ("Upload Min Mbps", mins.2)]
  let upd := update_entry_values entry new_values
  { users := st.users ++ [code],
    updated := updated || upd.2,
    table := aset table code upd.1,
    ncfg := st.ncfg,
    counter := counter }

/-- One iteration of the hotspot-user loop (source lines 440-471). -/
def hsStep (gen : ℕ → String) (r : RouterCfg) (st : PState)
    (user : HsUserR) : PState :=
  match hsCode r user with
  | none => st
  | some code =>
      match aget st.table code with
      | some e =>
          hsFinish r st code user.macAddress user.address e st.table
            st.updated st.counter
      | none =>
          let e := create_new_entry (gen st.counter) (gen (st.counter + 1))
            code r.name "HS" user.macAddress user.address
          hsFinish r st code user.macAddress user.address e
            (aset st.table code e) true (st.counter + 2)

/-- Source `process_hotspot_users` (source lines 425-473). -/
def process_hotspot_users (gen : ℕ → String) (r : RouterCfg)
    (snap : RouterSnap) (table : Table) (ncfg : NCfg) (counter : ℕ) :
    PState :=
  if ¬ r.hotspotEnabled then
    { users := [], updated := false, table := table, ncfg := ncfg,
      counter := counter }
  else
    snap.hotspotActive.foldl (hsStep gen r)
      { users := [], updated := false, table := table, ncfg := ncfg,
        counter := counter }

/-- The lease list assembled over `dhcp_servers` (source lines 486-493):
the full lease resource is fetched once per configured server name and
filtered by it unless the name is `"*"`. -/
def dhcpLeaseList (r : RouterCfg) (snap : RouterSnap) : List LeaseR :=
  r.dhcpServers.foldl
    (fun acc server =>
      acc ++ (if server = "*" then snap.leases
              else snap.leases.filter (fun l => l.server = server)))
    []

/-- Second half of one iteration of the lease loop (source lines
514-527).  Note the `Comment` update: a lease with a host name stores that
host name as the entry's comment. -/
def dhcpFinish (r : RouterCfg) (st : PState) (code mac ip hostname : String)
    (entry : Dict) (table : Table) (updated : Bool) (counter : ℕ) : PState :=
  let mins := calculate_min_rates r.dhcpDownloadStr r.dhcpUploadStr
  let new_values : Dict :=
    [("Parent Node", "DHCP-" ++ r.name),
     ("MAC", mac),
     ("IPv4", ip),
     ("Comment", if hostname ≠ "" then hostname else "DHCP"),
     ("Download Max Mbps", r.dhcpDownloadStr),
     ("Upload Max Mbps", r.dhcpUploadStr),
     ("Download Min Mbps", mins.1),
     ("Upload Min Mbps", mins.2)]
  let upd := update_entry_values entry new_values
  { users := st.users ++ [code],
    updated := updated || upd.2,
    table := aset table code upd.1,
    ncfg := st.ncfg,
    counter := counter }

/-- One iteration of the lease loop (source lines 495-527). -/
def dhcpStep (gen : ℕ → String) (r : RouterCfg) (st : PState)
    (lease : LeaseR) : PState :=
  match dhcpCode lease with
  | none => st
  | some code =>
      match aget st.table code with
      | some e =>
          dhcpFinish r st code lease.macAddress lease.address lease.hostName
            e st.table st.updated st.counter
      | none =>
          let e := create_new_entry (gen st.counter) (gen (st.counter + 1))
            code r.name "DHCP" lease.macAddress lease.address
          dhcpFinish r st code lease.macAddress lease.address lease.hostName
            e (aset st.table code e) true (st.counter + 2)

/-- Source `process_dhcp_leases` (source lines 475-529). -/
def process_dhcp_leases (gen : ℕ → String) (r : RouterCfg)
    (snap : RouterSnap) (table : Table) (ncfg : NCfg) (counter : ℕ) :
    PState :=
  if ¬ r.dhcpEnabled then
    { users := [], updated := false, table := table, ncfg := ncfg,
      counter := counter }
  else
    (dhcpLeaseList r snap).foldl (dhcpStep gen r)
      { users := [], updated := false, table := table, ncfg := ncfg,
        counter := counter }

/-- State threaded through `process_static_devices`. -/
structure SState where
  codes : List String
  updated : Bool
  table : Table
  counter : ℕ

/-- One iteration of the static-device loop (source lines 554-583).  An
existing entry is updated with the whole raw device dict; a new entry is
assembled with the source's defaults. -/
def staticStep (gen : ℕ → String) (st : SState) (device : Dict) : SState :=
  match staticCode device with
  | none => st
  | some cn =>
        let codes := st.codes ++ [cn]
        match aget st.table cn with
        | some e =>
            let upd := update_entry_values e device
            { codes := codes, updated := st.updated || upd.2,
              table := aset st.table cn upd.1, counter := st.counter }
        | none =>
            let e : Dict :=
              [("Circuit ID", gen st.counter),
               ("Device ID", gen (st.counter + 1)),
               ("Circuit Name", cn),
               ("Device Name", (aget device "Device Name").getD cn),
               ("Parent Node", (aget device "Parent Node").getD "Static"),
               ("MAC", (aget device "MAC").getD ""),
               ("IPv4", (aget device "IPv4").getD ""),
               ("IPv6", (aget device "IPv6").getD ""),
               ("Download Min Mbps",
                 (aget device "Download Min Mbps").getD "0"),
               ("Upload Min Mbps", (aget device "Upload Min Mbps").getD "0"),
               ("Download Max Mbps",
                 (aget device "Download Max Mbps").getD "0"),
               ("Upload Max Mbps", (aget device "Upload Max Mbps").getD "0"),
               ("Comment", (aget device "Comment").getD "")]
            { codes := codes, updated := true,
              table := aset st.table cn e, counter := st.counter + 2 }

/-- Source `process_static_devices` (source lines 531-585). -/
def process_static_devices (gen : ℕ → String) (devices : List Dict)
    (table : Table) (counter : ℕ) : SState :=
  devices.foldl (staticStep gen)
    { codes := [], updated := false, table := table, counter := counter }

/-! ### The main cycle (source lines 607-675, one iteration of the loop) -/

/-- The default node `update_network_json` (source lines 122-162) installs
for a router that is missing from `network.json`. -/
def routerDefaultNode (r : RouterCfg) : NNode :=
  siteNode
    ((if r.pppoeEnabled then [("PPP-" ++ r.name, siteNode [])] else []) ++
     (if r.hotspotEnabled then [("HS-" ++ r.name, siteNode [])] else []) ++
     (if r.dhcpEnabled then [("DHCP-" ++ r.name, siteNode [])] else []))

/-- Source `update_network_json`: add missing routers; the returned flag records
whether the file was rewritten (which the source does immediately,
independently of this cycle's `any_updates`). -/
def update_network_json (routers : List RouterCfg) (ncfg : NCfg) :
    NCfg × Bool :=
  routers.foldl
    (fun (p : NCfg × Bool) r =>
      if (aget p.1 r.name).isSome then p
      else (p.1 ++ [(r.name, routerDefaultNode r)], true))
    (ncfg, false)

/-- Accumulator of the per-router loop of `main` (source lines 618-637). -/
structure MState where
  table : Table
  ncfg : NCfg
  counter : ℕ
  allUsers : List String
  anyUpdates : Bool

/-- One router of the main loop: a connection failure skips the router
entirely; otherwise PPPoE, hotspot and DHCP are processed in order. -/
def routerStep (useProfile : Bool) (gen : ℕ → String) (st : MState)
    (ri : RouterInput) : MState :=
  match ri.conn with
  | none => st
  | some snap =>
      let p := process_pppoe_users useProfile gen ri.cfg snap st.table
        st.ncfg st.counter
      let h := process_hotspot_users gen ri.cfg snap p.table p.ncfg p.counter
      let d := process_dhcp_leases gen ri.cfg snap h.table h.ncfg h.counter
      { table := d.table, ncfg := d.ncfg, counter := d.counter,
        allUsers := st.allUsers ++ p.users ++ h.users ++ d.users,
        anyUpdates := st.anyUpdates || p.updated || h.updated || d.updated }

/-- The "Remove inactive users" step (source lines 654-659): every key not
observed this cycle is deleted, unconditionally; the flag records whether
any deletion happened. -/
def removeInactive (table : Table) (allUsers : List String) : Table × Bool :=
  (table.filter (fun p => allUsers.contains p.1),
   table.any (fun p => ¬ allUsers.contains p.1))

/-- All inputs of one cycle that the script reads from files/routers. -/
structure CycleInput where
  routers : List RouterInput
  staticDevices : List Dict
  useProfileBandwidth : Bool := false
deriving DecidableEq

/-- Observable outcome of one cycle. -/
structure CycleResult where
  table : Table
  ncfg : NCfg
  counter : ℕ
  allUsers : List String
  anyUpdates : Bool
  earlyNetworkWrite : Bool
  persisted : Bool
  reloadInvoked : Bool

/-- The state after the per-router loop of one cycle (source lines
612-637): the canonical table read for this cycle, the network config
after `update_network_json`, and the users observed by the router
sources. -/
def mergedState (gen : ℕ → String) (counter : ℕ) (table0 : Table)
    (ncfg0 : NCfg) (inp : CycleInput) : MState :=
  inp.routers.foldl (routerStep inp.useProfileBandwidth gen)
    { table := table0,
      ncfg := (update_network_json (inp.routers.map (·.cfg)) ncfg0).1,
      counter := counter, allUsers := [], anyUpdates := false }

/-- The state after static-device processing (source line 640). -/
def staticState (gen : ℕ → String) (counter : ℕ) (table0 : Table)
    (ncfg0 : NCfg) (inp : CycleInput) : SState :=
  process_static_devices gen inp.staticDevices
    (mergedState gen counter table0 ncfg0 inp).table
    (mergedState gen counter table0 ncfg0 inp).counter

/-- One iteration of `main`'s `while True` loop (source lines 610-675).

Committing (source lines 661-672): `write_shaped_devices_csv` and
`write_network_json` run only under `if any_updates:`; the LibreQoS reload
subprocess call sits in a `try` block *outside* that `if`, so it is
invoked every cycle — its `else:` arm (logging "No updates needed") fires
after a successful reload. -/
def runCycle (gen : ℕ → String) (counter : ℕ) (table0 : Table)
    (ncfg0 : NCfg) (inp : CycleInput) : CycleResult :=
  let m := mergedState gen counter table0 ncfg0 inp
  let s := staticState gen counter table0 ncfg0 inp
  let allUsers := m.allUsers ++ s.codes
  let anyU := m.anyUpdates || s.updated
  let ncfg2 :=
    if ¬ s.codes.isEmpty ∧ (aget m.ncfg "Static").isNone then
      m.ncfg ++ [("Static", NNode.mk DEFAULT_BANDWIDTH DEFAULT_BANDWIDTH
        "static" [])]
    else m.ncfg
  let pruned := removeInactive s.table allUsers
  let anyUpdates := anyU || pruned.2
  { table := pruned.1, ncfg := ncfg2, counter := s.counter,
    allUsers := allUsers, anyUpdates := anyUpdates,
    earlyNetworkWrite := (update_network_json (inp.routers.map (·.cfg))
      ncfg0).2, persisted := anyUpdates,
    reloadInvoked := true }

/-- The spec's "mode-change guard" (§4.5), written from the spec's words
for comparison with `runCycle`: if the current mode flag differs from the
persisted baseline, the canonical table is cleared (the hierarchy is not)
before the cycle's merging begins, and the reset is reported. -/
def specCheckAndReset (currentMode lastPersisted : Bool) (table : Table) :
    Table × Bool :=
  if currentMode ≠ lastPersisted then ([], true) else (table, false)

/-- Unit factor of `convert_to_mbps`: `k` divides by 1000, `g` multiplies
by 1000, `m` and no unit leave the value in Mbps. -/
def unitFactor : Option Char → ℚ
  | some c => if c = 'k' then 1 / 1000 else if c = 'g' then 1000 else 1
  | none => 1

/-- Field of a table entry: `aget` through both levels. -/
def entryField (t : Table) (code field : String) : Option String :=
  (aget t code).bind (fun e => aget e field)

/-! ### Concrete scenarios used by counterexamples and witnesses -/

/-- A deterministic id oracle standing in for `generate_short_id`. -/
def genId : ℕ → String := fun n => "ID" ++ toString n

def rtR : RouterCfg := { name := "R", pppoeEnabled := true }

def secU1 : PppSecretR :=
  { name := "u1", callerId := "AA:BB", rateLimit := some "10m/10m" }

/-- Snapshot with `u1` online at address `10.0.0.5`. -/
def snapU1 : RouterSnap :=
  { secrets := [secU1], active := [{ name := "u1", address := some "10.0.0.5" }] }

/-- Snapshot with `u1` still provisioned but offline this cycle. -/
def snapU1Gone : RouterSnap := { secrets := [secU1], active := [] }

/-- A static device reserving the same address `10.0.0.5`. -/
def devS1 : Dict :=
  [("Circuit Name", "s1"), ("IPv4", "10.0.0.5"), ("Comment", "Static")]

def cycleInp1 : CycleInput :=
  { routers := [⟨rtR, some snapU1⟩], staticDevices := [devS1] }

/-- Next cycle: `u1` offline, static list empty. -/
def cycleInp2 : CycleInput :=
  { routers := [⟨rtR, some snapU1Gone⟩], staticDevices := [] }

def cycleRes1 : CycleResult := runCycle genId 0 [] [] cycleInp1

def cycleRes2 : CycleResult :=
  runCycle genId cycleRes1.counter cycleRes1.table cycleRes1.ncfg cycleInp2

/-- The same router with the per-plan parent mode toggled on. -/
def rtRplan : RouterCfg :=
  { name := "R", pppoeEnabled := true, perPlanNode := true }

def cycleInpFlat : CycleInput :=
  { routers := [⟨rtR, some snapU1⟩], staticDevices := [] }

def cycleInpPlan : CycleInput :=
  { routers := [⟨rtRplan, some snapU1⟩], staticDevices := [] }

def resFlat1 : CycleResult := runCycle genId 0 [] [] cycleInpFlat

/-- The cycle after the mode toggle, as the code actually runs it. -/
def resToggleActual : CycleResult :=
  runCycle genId resFlat1.counter resFlat1.table resFlat1.ncfg cycleInpPlan

/-- The cycle after the mode toggle as §4.5 of the spec predicts it: the
table is cleared by `specCheckAndReset` before merging. -/
def resTogglePredicted : CycleResult :=
  runCycle genId resFlat1.counter
    (specCheckAndReset true false resFlat1.table).1 resFlat1.ncfg
    cycleInpPlan

/-- A router whose configuration carries a manual parent pool (a key the
source never reads). -/
def rtPool : RouterCfg :=
  { name := "R", pppoeEnabled := true,
    manualPool := ["PPPOE-A", "PPPOE-B"] }

/-- Three new PPP circuits in one cycle, in observation order. -/
def snap3 : RouterSnap :=
  { secrets := [{ name := "u1" }, { name := "u2" }, { name := "u3" }],
    active := [⟨"u1", some "10.0.0.1"⟩, ⟨"u2", some "10.0.0.2"⟩,
      ⟨"u3", some "10.0.0.3"⟩] }

def pState3 : PState := process_pppoe_users false genId rtPool snap3 [] [] 0

/-- A cycle with nothing configured and nothing stored: no change at all. -/
def emptyCycleRes : CycleResult :=
  runCycle genId 0 [] [] { routers := [], staticDevices := [] }

def rtD : RouterCfg := { name := "R", dhcpEnabled := true }

def leaseLaptop : LeaseR :=
  { macAddress := "AA:BB:CC", address := "10.0.0.9", hostName := "laptop",
    server := "dhcp1" }

def snapD : RouterSnap := { leases := [leaseLaptop] }

def dState : PState := process_dhcp_leases genId rtD snapD [] [] 0

/-- An empty processor state, for single-step witnesses. -/
def pst0 : PState :=
  { users := [], updated := false, table := [], ncfg := [], counter := 0 }

def rtA : RouterCfg := { name := "A", pppoeEnabled := true }

def rtB : RouterCfg := { name := "B", pppoeEnabled := true }

def secAlice : PppSecretR := { name := "alice" }

def snapAliceActive : RouterSnap :=
  { secrets := [secAlice], active := [⟨"alice", some "10.1.1.1"⟩] }

def snapAliceIdle : RouterSnap := { secrets := [secAlice], active := [] }

/-- Cycle 1: `alice` is served by router A; router B knows the same
user name but she is idle there. -/
def c10Inp1 : CycleInput :=
  { routers := [⟨rtA, some snapAliceActive⟩, ⟨rtB, some snapAliceIdle⟩],
    staticDevices := [] }

def c10Res1 : CycleResult := runCycle genId 0 [] [] c10Inp1

/-- Cycle 2: router A is unreachable for the whole cycle; `alice` is now
active on router B under the same circuit name. -/
def c10Inp2 : CycleInput :=
  { routers := [⟨rtA, none⟩, ⟨rtB, some snapAliceActive⟩],
    staticDevices := [] }

def c10Res2 : CycleResult :=
  runCycle genId c10Res1.counter c10Res1.table c10Res1.ncfg c10Inp2

/-! ### Association-list lemmas -/

theorem aget_aset_self {α : Type} (d : List (String × α)) (k : String)
    (v : α) : aget (aset d k v) k = some v := by
  induction d with
  | nil => simp [aset, aget]
  | cons p rest ih =>
      obtain ⟨k', v'⟩ := p
      by_cases h : k' = k
      · simp [aset, aget, h]
      · simp [aset, aget, h, ih]

theorem aget_aset_ne {α : Type} (d : List (String × α)) (k k' : String)
    (v : α) (h : k' ≠ k) : aget (aset d k v) k' = aget d k' := by
  have h' : ¬ k = k' := fun hh => h hh.symm
  induction d with
  | nil => simp [aset, aget, h']
  | cons p rest ih =>
      obtain ⟨k0, v0⟩ := p
      by_cases hk : k0 = k
      · subst hk
        simp [aset, aget, h']
      · by_cases hk' : k0 = k'
        · subst hk'
          simp [aset, aget, hk]
        · simp [aset, aget, hk, hk', ih]

theorem aget_aset_isSome {α : Type} (d : List (String × α)) (k k' : String)
    (v : α) : (aget (aset d k v) k').isSome
      = (k' = k ∨ (aget d k').isSome : Prop) := by
  by_cases h : k' = k
  · subst h
    simp [aget_aset_self]
  · simp [aget_aset_ne _ _ _ _ h, h]

theorem aget_filter {α : Type} (t : List (String × α)) (p : String → Bool)
    (k : String) :
    aget (t.filter (fun x => p x.1)) k
      = if p k then aget t k else none := by
  induction t with
  | nil => simp [aget]
  | cons x rest ih =>
      obtain ⟨k0, v0⟩ := x
      rw [List.filter_cons]
      by_cases hc : p k0
      · by_cases hk : k0 = k
        · subst hk
          simp [hc, aget]
        · simp [hc, aget, hk, ih]
      · by_cases hk : k0 = k
        · subst hk
          simp only [hc, Bool.false_eq_true, if_false]
          rw [ih, if_neg hc]
        · simp only [hc, Bool.false_eq_true, if_false]
          rw [ih]
          by_cases hpk : p k
          · rw [if_pos hpk, if_pos hpk]
            simp [aget, hk]
          · rw [if_neg hpk, if_neg hpk]

theorem aget_none_iff {α : Type} (d : List (String × α)) (k : String) :
    aget d k = none ↔ k ∉ d.map Prod.fst := by
  induction d with
  | nil => simp [aget]
  | cons p rest ih =>
      obtain ⟨k0, v0⟩ := p
      by_cases hk : k0 = k
      · subst hk
        simp [aget]
      · rw [show aget ((k0, v0) :: rest) k = aget rest k by simp [aget, hk],
          ih]
        simp only [List.map_cons, List.mem_cons]
        constructor
        · intro h hor
          rcases hor with h1 | h2
          · exact hk h1.symm
          · exact h h2
        · intro h hmem
          exact h (Or.inr hmem)

theorem aset_map_fst {α : Type} (d : List (String × α)) (k : String) (v : α) :
    (aset d k v).map Prod.fst
      = if (aget d k).isSome then d.map Prod.fst else d.map Prod.fst ++ [k] := by
  induction d with
  | nil => simp [aset, aget]
  | cons p rest ih =>
      obtain ⟨k0, v0⟩ := p
      by_cases hk : k0 = k
      · subst hk
        simp [aset, aget]
      · simp only [aset, hk, if_false, List.map_cons, aget, ih]
        by_cases hs : (aget rest k).isSome
        · simp [hs]
        · simp [hs]

theorem aset_keys_nodup {α : Type} (d : List (String × α)) (k : String)
    (v : α) (h : (d.map Prod.fst).Nodup) :
    ((aset d k v).map Prod.fst).Nodup := by
  rw [aset_map_fst]
  by_cases hs : (aget d k).isSome
  · simp [hs, h]
  · have hk : k ∉ d.map Prod.fst := by
      rw [← aget_none_iff]
      cases hh : aget d k
      · rfl
      · simp [hh] at hs
    simp [hs, List.nodup_append, h, hk]

theorem buildAssoc_keys_nodup {α : Type} (key : α → String) (l : List α) :
    ((buildAssoc key l).map Prod.fst).Nodup := by
  suffices h : ∀ (acc : List (String × α)), (acc.map Prod.fst).Nodup →
      ((l.foldl (fun acc x => aset acc (key x) x) acc).map Prod.fst).Nodup by
    exact h [] (by simp)
  induction l with
  | nil => intro acc hacc; exact hacc
  | cons x rest ih =>
      intro acc hacc
      exact ih _ (aset_keys_nodup _ _ _ hacc)

theorem filterMap_keys_sublist {α β : Type} (l : List (String × α))
    (f : (String × α) → Option (String × β))
    (hf : ∀ p q, f p = some q → q.1 = p.1) :
    ((l.filterMap f).map Prod.fst).Sublist (l.map Prod.fst) := by
  induction l with
  | nil => simp
  | cons p rest ih =>
      rw [List.filterMap_cons]
      cases hfp : f p with
      | none => exact (ih).trans (List.sublist_cons_self _ _)
      | some q =>
          simp only [List.map_cons]
          rw [hf p q hfp]
          exact ih.cons₂ _

theorem activeSecrets_keys_nodup (secrets : List PppSecretR)
    (active : List PppActiveR) :
    ((activeSecrets secrets active).map Prod.fst).Nodup := by
  apply List.Nodup.sublist _ (buildAssoc_keys_nodup (·.name) secrets)
  apply filterMap_keys_sublist
  intro p q hpq
  cases h1 : aget (buildAssoc (fun a => a.name) active) p.1 with
  | none => simp [h1] at hpq
  | some a =>
      cases h2 : a.address with
      | none => simp [h1, h2] at hpq
      | some addr =>
          simp only [h1, h2, Option.some.injEq] at hpq
          rw [← hpq]

/-! ### `update_entry_values` lemmas -/

theorem uev_aget_not_mem (e : Dict) (nv : Dict) (k : String)
    (h : k ∉ nv.map Prod.fst) :
    aget (update_entry_values e nv).1 k = aget e k := by
  induction nv generalizing e with
  | nil => rfl
  | cons kv rest ih =>
      simp only [List.map_cons, List.mem_cons, not_or] at h
      obtain ⟨h1, h2⟩ := h
      by_cases hs : aget e kv.1 = some kv.2
      · rw [update_entry_values, if_pos hs]
        exact ih e h2
      · rw [update_entry_values, if_neg hs]
        rw [ih _ h2]
        exact aget_aset_ne _ _ _ _ h1

theorem uev_aget_mem (e : Dict) (nv : Dict) (k v : String)
    (hnd : (nv.map Prod.fst).Nodup) (h : (k, v) ∈ nv) :
    aget (update_entry_values e nv).1 k = some v := by
  induction nv generalizing e with
  | nil => cases h
  | cons kv rest ih =>
      simp only [List.map_cons, List.nodup_cons] at hnd
      obtain ⟨hk1, hk2⟩ := hnd
      rcases List.mem_cons.mp h with hh | ht
      · have hkk : kv.1 = k := by rw [← hh]
        have hkv : kv.2 = v := by rw [← hh]
        subst hkk; subst hkv
        have hnot : kv.1 ∉ rest.map Prod.fst := hk1
        by_cases hs : aget e kv.1 = some kv.2
        · rw [update_entry_values, if_pos hs]
          rw [uev_aget_not_mem _ _ _ hnot]
          exact hs
        · rw [update_entry_values, if_neg hs]
          rw [uev_aget_not_mem _ _ _ hnot]
          exact aget_aset_self _ _ _
      · by_cases hs : aget e kv.1 = some kv.2
        · rw [update_entry_values, if_pos hs]
          exact ih e hk2 ht
        · rw [update_entry_values, if_neg hs]
          exact ih (aset e kv.1 kv.2) hk2 ht

theorem uev_of_agree (e : Dict) (nv : Dict)
    (h : ∀ kv ∈ nv, aget e kv.1 = some kv.2) :
    update_entry_values e nv = (e, false) := by
  induction nv with
  | nil => rfl
  | cons kv rest ih =>
      rw [update_entry_values, if_pos (h kv (List.mem_cons_self _ _))]
      exact ih (fun kv' h' => h kv' (List.mem_cons_of_mem _ h'))

/-! ### Numeric lemmas for the rate calculators -/

theorem natFloor_div_pow (n e : ℕ) :
    ⌊(n : ℚ) / (10 : ℚ) ^ e⌋₊ = n / 10 ^ e := by
  have h : ((10 : ℚ) ^ e) = ((10 ^ e : ℕ) : ℚ) := by push_cast; ring
  rw [h, Rat.natFloor_natCast_div_natCast]

theorem natFloor_toQ_max (d : DNum) :
    ⌊d.toQ * MAX_RATE_PERCENTAGE⌋₊ = d.num / 10 ^ d.e := by
  rw [show MAX_RATE_PERCENTAGE = 1 from rfl, mul_one, DNum.toQ, natFloor_div_pow]

theorem natFloor_toQ_min (d : DNum) :
    ⌊d.toQ * MIN_RATE_PERCENTAGE⌋₊ = 3 * d.num / 10 ^ (d.e + 1) := by
  have h : d.toQ * MIN_RATE_PERCENTAGE
      = ((3 * d.num : ℕ) : ℚ) / (10 : ℚ) ^ (d.e + 1) := by
    rw [DNum.toQ, MIN_RATE_PERCENTAGE]
    push_cast
    field_simp
    ring
  rw [h, natFloor_div_pow]

/-! ### Claim theorems: rate normalizer -/

/-- C6: for every input string (a nonnegative decimal, with non-numeric
strings read as 0), `calculate_max_rates` returns
`max (floor (x * MAX_RATE_PERCENTAGE)) 2` per side and
`calculate_min_rates` returns `max (floor (x * MIN_RATE_PERCENTAGE)) 2`
per side, and every returned value is at least 2. -/
theorem calc_rates_floor_and_floor2 (rx tx : String) :
    calculate_max_rates rx tx =
      (toString (max ⌊(floatOrZero rx).toQ * MAX_RATE_PERCENTAGE⌋₊ 2),
       toString (max ⌊(floatOrZero tx).toQ * MAX_RATE_PERCENTAGE⌋₊ 2))
    ∧ calculate_min_rates rx tx =
      (toString (max ⌊(floatOrZero rx).toQ * MIN_RATE_PERCENTAGE⌋₊ 2),
       toString (max ⌊(floatOrZero tx).toQ * MIN_RATE_PERCENTAGE⌋₊ 2))
    ∧ 2 ≤ max ⌊(floatOrZero rx).toQ * MAX_RATE_PERCENTAGE⌋₊ 2
    ∧ 2 ≤ max ⌊(floatOrZero tx).toQ * MAX_RATE_PERCENTAGE⌋₊ 2
    ∧ 2 ≤ max ⌊(floatOrZero rx).toQ * MIN_RATE_PERCENTAGE⌋₊ 2
    ∧ 2 ≤ max ⌊(floatOrZero tx).toQ * MIN_RATE_PERCENTAGE⌋₊ 2 := by
  refine ⟨?_, ?_, le_max_right _ _, le_max_right _ _, le_max_right _ _,
    le_max_right _ _⟩
  · simp only [calculate_max_rates, natFloor_toQ_max]
  · simp only [calculate_min_rates, natFloor_toQ_min]

theorem applyUnit_toQ (n : DNum) (u : Option Char) :
    (applyUnit n u).toQ = n.toQ * unitFactor u := by
  match u with
  | none => simp [applyUnit, unitFactor]
  | some c =>
      by_cases hk : c = 'k'
      · simp only [applyUnit, unitFactor, hk, if_true, DNum.toQ]
        rw [mul_one_div, div_div, pow_add]
        norm_num
      · by_cases hg : c = 'g'
        · simp only [applyUnit, unitFactor, hk, hg, if_false, if_true,
            DNum.toQ]
          push_cast
          ring
        · simp [applyUnit, unitFactor, hk, hg]

theorem roundHalfEvenQ_natCast_div (a b : ℕ) (hb : 0 < b) :
    roundHalfEvenQ ((a : ℚ) / (b : ℚ)) = (roundHalfEvenDiv a b : ℤ) := by
  have hbq : (0 : ℚ) < (b : ℚ) := by exact_mod_cast hb
  have hbq' : ((b : ℕ) : ℚ) ≠ 0 := ne_of_gt hbq
  have hfloor : ⌊(a : ℚ) / (b : ℚ)⌋ = ((a / b : ℕ) : ℤ) := by
    rw [Rat.floor_natCast_div_natCast]
    exact (Int.ofNat_div _ _).symm
  have hmod := Nat.div_add_mod a b
  have hcast : ((b : ℕ) : ℚ) * ((a / b : ℕ) : ℚ) + ((a % b : ℕ) : ℚ)
      = ((a : ℕ) : ℚ) := by exact_mod_cast hmod
  have hfrac : (a : ℚ) / (b : ℚ) - ((a / b : ℕ) : ℚ)
      = ((a % b : ℕ) : ℚ) / (b : ℚ) := by
    rw [eq_div_iff hbq', sub_mul, div_mul_cancel₀ _ hbq']
    linarith
  have hlt : ((a % b : ℕ) : ℚ) / (b : ℚ) < 1 / 2 ↔ 2 * (a % b) < b := by
    rw [div_lt_div_iff₀ hbq (by norm_num), one_mul]
    norm_cast
    omega
  have hgt : (1 : ℚ) / 2 < ((a % b : ℕ) : ℚ) / (b : ℚ) ↔ b < 2 * (a % b) := by
    rw [div_lt_div_iff₀ (by norm_num) hbq, one_mul]
    norm_cast
    omega
  have hdvd : (2 ∣ ((a / b : ℕ) : ℤ)) ↔ a / b % 2 = 0 := by
    rw [show ((2 : ℤ)) = ((2 : ℕ) : ℤ) from rfl, Int.natCast_dvd_natCast]
    omega
  have hcond1 : ((a : ℚ) / (b : ℚ) - (⌊(a : ℚ) / (b : ℚ)⌋ : ℚ) < 1 / 2)
      ↔ 2 * (a % b) < b := by
    rw [hfloor, Int.cast_natCast, hfrac]
    exact hlt
  have hcond2 : ((1 : ℚ) / 2 < (a : ℚ) / (b : ℚ) - (⌊(a : ℚ) / (b : ℚ)⌋ : ℚ))
      ↔ b < 2 * (a % b) := by
    rw [hfloor, Int.cast_natCast, hfrac]
    exact hgt
  have hcond3 : (2 ∣ ⌊(a : ℚ) / (b : ℚ)⌋) ↔ a / b % 2 = 0 := by
    rw [hfloor]
    exact hdvd
  simp only [roundHalfEvenQ, roundHalfEvenDiv]
  by_cases h1 : 2 * (a % b) < b
  · rw [if_pos (hcond1.mpr h1), if_pos h1]
    exact hfloor
  · rw [if_neg (fun hc => h1 (hcond1.mp hc)), if_neg h1]
    by_cases h2 : b < 2 * (a % b)
    · rw [if_pos (hcond2.mpr h2), if_pos h2]
      rw [hfloor]
      push_cast
      ring
    · rw [if_neg (fun hc => h2 (hcond2.mp hc)), if_neg h2]
      by_cases h3 : a / b % 2 = 0
      · rw [if_pos (hcond3.mpr h3), if_pos h3]
        exact hfloor
      · rw [if_neg (fun hc => h3 (hcond3.mp hc)), if_neg h3]
        rw [hfloor]
        push_cast
        ring

theorem round2_eq_roundHalfEvenQ (d : DNum) :
    (round2 d : ℤ) = roundHalfEvenQ (100 * d.toQ) := by
  have hb : 0 < 10 ^ d.e := pow_pos (by norm_num) d.e
  have hkey : 100 * d.toQ
      = ((d.num * 100 : ℕ) : ℚ) / ((10 ^ d.e : ℕ) : ℚ) := by
    rw [DNum.toQ]
    push_cast
    ring
  rw [hkey, roundHalfEvenQ_natCast_div _ _ hb]
  rfl

/-- C7: rate-pair parsing.  Missing/empty/`"0/0"` input yields `("0","0")`;
when the first whitespace token splits at `'/'` into exactly two sides,
each side is converted independently (a malformed side yielding `"0"`, a
well-formed side scaled by its unit — `k` dividing by 1000, `m` neutral,
`g` multiplying by 1000, unitless read as Mbps — and rounded half-even to
two decimals); when the string has no tokens or its first token does not
split into exactly two sides, the default pair `("3","3")` is returned
instead of an error. -/
theorem parse_rate_limit_spec :
    parse_rate_limit none = ("0", "0")
  ∧ parse_rate_limit (some "") = ("0", "0")
  ∧ parse_rate_limit (some "0/0") = ("0", "0")
  ∧ (∀ s : String, s ≠ "" → s ≠ "0/0" →
      ∀ first rest, pySplitWs s.data = first :: rest →
      ∀ rx tx, splitOnChar '/' first = [rx, tx] →
        parse_rate_limit (some s)
          = (convert_to_mbps (String.mk rx), convert_to_mbps (String.mk tx)))
  ∧ (∀ a : String, matchNum (pyStrip a.data) = none → convert_to_mbps a = "0")
  ∧ (∀ (a : String) (n : DNum) (u : Option Char), a ≠ "" → a ≠ "0" →
      matchNum (pyStrip a.data) = some (n, u) →
        convert_to_mbps a = pyFloatStr (round2 (applyUnit n u)))
  ∧ (∀ (n : DNum) (u : Option Char), (applyUnit n u).toQ = n.toQ * unitFactor u)
  ∧ (∀ n : DNum, (round2 n : ℤ) = roundHalfEvenQ (100 * n.toQ))
  ∧ (∀ s : String, s ≠ "" → s ≠ "0/0" → pySplitWs s.data = [] →
        parse_rate_limit (some s) = ("3", "3"))
  ∧ (∀ s : String, s ≠ "" → s ≠ "0/0" →
      ∀ first rest, pySplitWs s.data = first :: rest →
      (splitOnChar '/' first).length ≠ 2 →
        parse_rate_limit (some s) = ("3", "3")) := by
  refine ⟨rfl, rfl, rfl, ?_, ?_, ?_, applyUnit_toQ, round2_eq_roundHalfEvenQ,
    ?_, ?_⟩
  · intro s h1 h2 first rest hws rx tx hs
    simp only [parse_rate_limit, h1, h2, or_self, if_false, hws, hs]
  · intro a hm
    by_cases h0 : a = "" ∨ a = "0"
    · rcases h0 with h | h <;> subst h <;> decide
    · simp only [convert_to_mbps, h0, if_false, hm]
  · intro a n u h1 h2 hm
    simp only [convert_to_mbps, h1, h2, or_self, if_false, hm]
    match u with
    | none => simp [applyUnit]
    | some c =>
        by_cases hk : c = 'k'
        · simp [hk, applyUnit]
        · by_cases hg : c = 'g'
          · simp [hk, hg, applyUnit]
          · by_cases hmc : c = 'm'
            · simp [hk, hg, hmc, applyUnit]
            · simp [hk, hg, hmc, applyUnit]
  · intro s h1 h2 hws
    simp only [parse_rate_limit, h1, h2, or_self, if_false, hws]
  · intro s h1 h2 first rest hws hlen
    simp only [parse_rate_limit, h1, h2, or_self, if_false, hws]
    match hx : splitOnChar '/' first with
    | [] => rfl
    | [_] => rfl
    | [a, b] => exact absurd (by rw [hx]; rfl) hlen
    | _ :: _ :: _ :: _ => rfl

/-- Witness for `parse_rate_limit_spec` at concrete inputs:
`"x/5m"` parses per side (the malformed side giving `"0"`), and
`"1/2/3"` falls back to the `("3","3")` default. -/
theorem parse_rate_limit_spec_witness :
    parse_rate_limit (some "x/5m") = ("0", "5.0")
    ∧ parse_rate_limit (some "1/2/3") = ("3", "3") := by
  constructor
  · have h := parse_rate_limit_spec.2.2.2.1 "x/5m" (by decide) (by decide)
      "x/5m".data [] (by decide) "x".data "5m".data (by decide)
    rw [h]
    decide
  · exact parse_rate_limit_spec.2.2.2.2.2.2.2.2.2 "1/2/3" (by decide)
      (by decide) "1/2/3".data [] (by decide) (by decide)

/-- C8: updating an entry with values it already satisfies reports no
change and leaves it untouched; a second identical update after a first
one is the identity with `changed = false`; keys not present in the
update (such as `Circuit ID` and `Device ID`) are never modified. -/
theorem upsert_idempotent (e nv : Dict) (hnd : (nv.map Prod.fst).Nodup) :
    update_entry_values (update_entry_values e nv).1 nv
        = ((update_entry_values e nv).1, false)
    ∧ ((∀ kv ∈ nv, aget e kv.1 = some kv.2) →
        update_entry_values e nv = (e, false))
    ∧ (∀ k, k ∉ nv.map Prod.fst →
        aget (update_entry_values e nv).1 k = aget e k) := by
  refine ⟨?_, fun h => uev_of_agree e nv h,
    fun k hk => uev_aget_not_mem e nv k hk⟩
  apply uev_of_agree
  intro kv hkv
  exact uev_aget_mem e nv kv.1 kv.2 hnd (by simpa using hkv)

/-- Witness for `upsert_idempotent` at a concrete entry and update. -/
theorem upsert_idempotent_witness :
    update_entry_values
        (update_entry_values [("Circuit ID", "X"), ("MAC", "a")]
          [("MAC", "b"), ("IPv4", "1.2.3.4")]).1
        [("MAC", "b"), ("IPv4", "1.2.3.4")]
      = ((update_entry_values [("Circuit ID", "X"), ("MAC", "a")]
          [("MAC", "b"), ("IPv4", "1.2.3.4")]).1, false)
    ∧ aget (update_entry_values [("Circuit ID", "X"), ("MAC", "a")]
        [("MAC", "b"), ("IPv4", "1.2.3.4")]).1 "Circuit ID" = some "X" := by
  constructor
  · exact (upsert_idempotent [("Circuit ID", "X"), ("MAC", "a")]
      [("MAC", "b"), ("IPv4", "1.2.3.4")] (by decide)).1
  · decide

/-! ### PPPoE processing lemmas -/

/-- Core of every dynamic upsert: after `aset t code (uev e nv).1` with the
seven PPP update keys, the entry is present, carries the written
`Parent Node`, and keeps its `Comment` and `Circuit ID`. -/
theorem upsert_core (t : Table) (code : String) (e : Dict)
    (pn mac ip dmax umax dmin umin : String) :
    aget (aset t code
        (update_entry_values e
          [("Parent Node", pn), ("MAC", mac), ("IPv4", ip),
           ("Download Max Mbps", dmax), ("Upload Max Mbps", umax),
           ("Download Min Mbps", dmin), ("Upload Min Mbps", umin)]).1) code
      = some (update_entry_values e
          [("Parent Node", pn), ("MAC", mac), ("IPv4", ip),
           ("Download Max Mbps", dmax), ("Upload Max Mbps", umax),
           ("Download Min Mbps", dmin), ("Upload Min Mbps", umin)]).1
    ∧ aget (update_entry_values e
          [("Parent Node", pn), ("MAC", mac), ("IPv4", ip),
           ("Download Max Mbps", dmax), ("Upload Max Mbps", umax),
           ("Download Min Mbps", dmin), ("Upload Min Mbps", umin)]).1
        "Parent Node" = some pn
    ∧ aget (update_entry_values e
          [("Parent Node", pn), ("MAC", mac), ("IPv4", ip),
           ("Download Max Mbps", dmax), ("Upload Max Mbps", umax),
           ("Download Min Mbps", dmin), ("Upload Min Mbps", umin)]).1
        "Comment" = aget e "Comment"
    ∧ aget (update_entry_values e
          [("Parent Node", pn), ("MAC", mac), ("IPv4", ip),
           ("Download Max Mbps", dmax), ("Upload Max Mbps", umax),
           ("Download Min Mbps", dmin), ("Upload Min Mbps", umin)]).1
        "Circuit ID" = aget e "Circuit ID"
    ∧ aget (update_entry_values e
          [("Parent Node", pn), ("MAC", mac), ("IPv4", ip),
           ("Download Max Mbps", dmax), ("Upload Max Mbps", umax),
           ("Download Min Mbps", dmin), ("Upload Min Mbps", umin)]).1
        "IPv4" = some ip := by
  have hnd : (([("Parent Node", pn), ("MAC", mac), ("IPv4", ip),
      ("Download Max Mbps", dmax), ("Upload Max Mbps", umax),
      ("Download Min Mbps", dmin), ("Upload Min Mbps", umin)] : Dict).map
        Prod.fst).Nodup := by
    show (["Parent Node", "MAC", "IPv4", "Download Max Mbps",
      "Upload Max Mbps", "Download Min Mbps", "Upload Min Mbps"] :
        List String).Nodup
    decide
  have hcm : "Comment" ∉ (([("Parent Node", pn), ("MAC", mac), ("IPv4", ip),
      ("Download Max Mbps", dmax), ("Upload Max Mbps", umax),
      ("Download Min Mbps", dmin), ("Upload Min Mbps", umin)] : Dict).map
        Prod.fst) := by
    show "Comment" ∉ (["Parent Node", "MAC", "IPv4", "Download Max Mbps",
      "Upload Max Mbps", "Download Min Mbps", "Upload Min Mbps"] :
        List String)
    decide
  have hci : "Circuit ID" ∉ (([("Parent Node", pn), ("MAC", mac),
      ("IPv4", ip), ("Download Max Mbps", dmax), ("Upload Max Mbps", umax),
      ("Download Min Mbps", dmin), ("Upload Min Mbps", umin)] : Dict).map
        Prod.fst) := by
    show "Circuit ID" ∉ (["Parent Node", "MAC", "IPv4", "Download Max Mbps",
      "Upload Max Mbps", "Download Min Mbps", "Upload Min Mbps"] :
        List String)
    decide
  exact ⟨aget_aset_self _ _ _,
    uev_aget_mem _ _ _ _ hnd (List.mem_cons_self _ _),
    uev_aget_not_mem _ _ _ hcm, uev_aget_not_mem _ _ _ hci,
    uev_aget_mem _ _ _ _ hnd (List.mem_cons_of_mem _
      (List.mem_cons_of_mem _ (List.mem_cons_self _ _)))⟩

/-- Key facts about `pppFinish` at the handled key. -/
theorem pppFinish_self (u : Bool) (r : RouterCfg) (profs : List PppProfileR)
    (st : PState) (code : String) (sec : PppSecretR) (entry : Dict)
    (table : Table) (updated : Bool) (counter : ℕ) :
    ∃ e', aget (pppFinish u r profs st code sec entry table updated
        counter).table code = some e'
      ∧ aget e' "Parent Node" = some (pppParent r sec)
      ∧ aget e' "Comment" = aget entry "Comment"
      ∧ aget e' "Circuit ID" = aget entry "Circuit ID"
      ∧ aget e' "IPv4" = some sec.address := by
  by_cases hp : r.perPlanNode
  · simp only [pppFinish, hp, if_true]
    refine ⟨_, (upsert_core table code entry _ _ _ _ _ _ _).1, ?_,
      (upsert_core table code entry _ _ _ _ _ _ _).2.2.1,
      (upsert_core table code entry _ _ _ _ _ _ _).2.2.2.1,
      (upsert_core table code entry _ _ _ _ _ _ _).2.2.2.2⟩
    rw [(upsert_core table code entry _ _ _ _ _ _ _).2.1]
    simp [pppParent, hp]
  · simp only [pppFinish, hp, if_false]
    refine ⟨_, (upsert_core table code entry _ _ _ _ _ _ _).1, ?_,
      (upsert_core table code entry _ _ _ _ _ _ _).2.2.1,
      (upsert_core table code entry _ _ _ _ _ _ _).2.2.2.1,
      (upsert_core table code entry _ _ _ _ _ _ _).2.2.2.2⟩
    rw [(upsert_core table code entry _ _ _ _ _ _ _).2.1]
    simp [pppParent, hp]

theorem pppStep_users (u : Bool) (g : ℕ → String) (r : RouterCfg)
    (profs : List PppProfileR) (st : PState) (it : String × PppSecretR) :
    (pppStep u g r profs st it).users = st.users ++ [it.1] := by
  cases hf : aget st.table it.1 with
  | some e => simp only [pppStep, hf]; rfl
  | none => simp only [pppStep, hf]; rfl

theorem pppFinish_aget_ne (u : Bool) (r : RouterCfg)
    (profs : List PppProfileR) (st : PState) (code : String)
    (sec : PppSecretR) (entry : Dict) (table : Table) (updated : Bool)
    (counter : ℕ) (code' : String) (h : code' ≠ code) :
    aget (pppFinish u r profs st code sec entry table updated counter).table
      code' = aget table code' := by
  by_cases hp : r.perPlanNode
  · simp only [pppFinish, hp, if_true]
    rw [aget_aset_ne _ _ _ _ h]
  · simp only [pppFinish, hp, if_false]
    rw [aget_aset_ne _ _ _ _ h]

theorem pppStep_aget_ne (u : Bool) (g : ℕ → String) (r : RouterCfg)
    (profs : List PppProfileR) (st : PState) (it : String × PppSecretR)
    (code : String) (h : code ≠ it.1) :
    aget (pppStep u g r profs st it).table code = aget st.table code := by
  cases hf : aget st.table it.1 with
  | some e =>
      simp only [pppStep, hf]
      rw [pppFinish_aget_ne _ _ _ _ _ _ _ _ _ _ _ h]
  | none =>
      simp only [pppStep, hf]
      rw [pppFinish_aget_ne _ _ _ _ _ _ _ _ _ _ _ h,
        aget_aset_ne _ _ _ _ h]

theorem pppStep_self (u : Bool) (g : ℕ → String) (r : RouterCfg)
    (profs : List PppProfileR) (st : PState) (code : String)
    (sec : PppSecretR) :
    ∃ e', aget (pppStep u g r profs st (code, sec)).table code = some e'
      ∧ aget e' "Parent Node" = some (pppParent r sec)
      ∧ (aget st.table code = none → aget e' "Comment" = some "PPP")
      ∧ (∀ e0, aget st.table code = some e0 →
          aget e' "Circuit ID" = aget e0 "Circuit ID"
          ∧ aget e' "Comment" = aget e0 "Comment")
      ∧ aget e' "IPv4" = some sec.address := by
  cases hf : aget st.table code with
  | none =>
      simp only [pppStep, hf]
      obtain ⟨e', h1, h2, h3, h4, h5⟩ := pppFinish_self u r profs st code sec
        (create_new_entry (g st.counter) (g (st.counter + 1)) code r.name
          "PPP" sec.callerId sec.address)
        (aset st.table code (create_new_entry (g st.counter)
          (g (st.counter + 1)) code r.name "PPP" sec.callerId sec.address))
        true (st.counter + 2)
      exact ⟨e', h1, h2, fun _ => by rw [h3]; rfl,
        fun e0 h0 => Option.noConfusion h0, h5⟩
  | some e =>
      simp only [pppStep, hf]
      obtain ⟨e', h1, h2, h3, h4, h5⟩ := pppFinish_self u r profs st code sec
        e st.table st.updated st.counter
      refine ⟨e', h1, h2, fun h0 => Option.noConfusion h0,
        fun e0 h0 => ?_, h5⟩
      injection h0 with he
      subst he
      exact ⟨h4, h3⟩

theorem pppStep_isSome (u : Bool) (g : ℕ → String) (r : RouterCfg)
    (profs : List PppProfileR) (st : PState) (it : String × PppSecretR)
    (code : String) (h : (aget st.table code).isSome) :
    (aget (pppStep u g r profs st it).table code).isSome := by
  by_cases hk : code = it.1
  · obtain ⟨k, sec⟩ := it
    simp only at hk
    subst hk
    obtain ⟨e', h1, _⟩ := pppStep_self u g r profs st code sec
    rw [h1]
    rfl
  · rw [pppStep_aget_ne _ _ _ _ _ _ _ hk]
    exact h

theorem pppStep_preserve_cid (u : Bool) (g : ℕ → String) (r : RouterCfg)
    (profs : List PppProfileR) (st : PState) (it : String × PppSecretR)
    (code : String) (e : Dict) (hf : aget st.table code = some e) :
    ∃ e', aget (pppStep u g r profs st it).table code = some e'
      ∧ aget e' "Circuit ID" = aget e "Circuit ID" := by
  by_cases hk : code = it.1
  · obtain ⟨k, sec⟩ := it
    simp only at hk
    subst hk
    obtain ⟨e', h1, _, _, h4, _⟩ := pppStep_self u g r profs st code sec
    exact ⟨e', h1, (h4 e hf).1⟩
  · exact ⟨e, by rw [pppStep_aget_ne _ _ _ _ _ _ _ hk]; exact hf, rfl⟩

theorem pppLoop_aget_not_mem (u : Bool) (g : ℕ → String) (r : RouterCfg)
    (profs : List PppProfileR) (items : List (String × PppSecretR))
    (st : PState) (code : String) (h : code ∉ items.map Prod.fst) :
    aget ((items.foldl (pppStep u g r profs) st).table) code
      = aget st.table code := by
  induction items generalizing st with
  | nil => rfl
  | cons it rest ih =>
      simp only [List.map_cons, List.mem_cons, not_or] at h
      rw [List.foldl_cons, ih _ h.2, pppStep_aget_ne _ _ _ _ _ _ _ h.1]

theorem pppLoop_isSome (u : Bool) (g : ℕ → String) (r : RouterCfg)
    (profs : List PppProfileR) (items : List (String × PppSecretR))
    (st : PState) (code : String) (h : (aget st.table code).isSome) :
    (aget ((items.foldl (pppStep u g r profs) st).table) code).isSome := by
  induction items generalizing st with
  | nil => exact h
  | cons it rest ih =>
      rw [List.foldl_cons]
      exact ih _ (pppStep_isSome _ _ _ _ _ _ _ h)

theorem pppLoop_preserve_cid (u : Bool) (g : ℕ → String) (r : RouterCfg)
    (profs : List PppProfileR) (items : List (String × PppSecretR))
    (st : PState) (code : String) (e : Dict)
    (hf : aget st.table code = some e) :
    ∃ e', aget ((items.foldl (pppStep u g r profs) st).table) code = some e'
      ∧ aget e' "Circuit ID" = aget e "Circuit ID" := by
  induction items generalizing st e with
  | nil => exact ⟨e, hf, rfl⟩
  | cons it rest ih =>
      rw [List.foldl_cons]
      obtain ⟨e1, h1, h2⟩ := pppStep_preserve_cid u g r profs st it code e hf
      obtain ⟨e', h1', h2'⟩ := ih _ _ h1
      exact ⟨e', h1', by rw [h2', h2]⟩

theorem pppLoop_users (u : Bool) (g : ℕ → String) (r : RouterCfg)
    (profs : List PppProfileR) (items : List (String × PppSecretR))
    (st : PState) :
    (items.foldl (pppStep u g r profs) st).users
      = st.users ++ items.map Prod.fst := by
  induction items generalizing st with
  | nil => simp
  | cons it rest ih =>
      rw [List.foldl_cons, ih, pppStep_users]
      simp

theorem pppLoop_users_present (u : Bool) (g : ℕ → String) (r : RouterCfg)
    (profs : List PppProfileR) (items : List (String × PppSecretR))
    (st : PState)
    (hinv : ∀ c ∈ st.users, (aget st.table c).isSome) :
    ∀ c ∈ (items.foldl (pppStep u g r profs) st).users,
      (aget ((items.foldl (pppStep u g r profs) st).table) c).isSome := by
  induction items generalizing st with
  | nil => exact hinv
  | cons it rest ih =>
      rw [List.foldl_cons]
      apply ih
      intro c hc
      rw [pppStep_users] at hc
      rcases List.mem_append.mp hc with hold | hnew
      · exact pppStep_isSome _ _ _ _ _ _ _ (hinv c hold)
      · obtain ⟨k, sec⟩ := it
        simp only [List.mem_singleton] at hnew
        subst hnew
        obtain ⟨e', h1, _⟩ := pppStep_self u g r profs st c sec
        rw [h1]
        rfl

theorem pppLoop_self (u : Bool) (g : ℕ → String) (r : RouterCfg)
    (profs : List PppProfileR) (items : List (String × PppSecretR))
    (st : PState) (code : String) (sec : PppSecretR)
    (hnd : (items.map Prod.fst).Nodup) (hmem : (code, sec) ∈ items) :
    ∃ e', aget ((items.foldl (pppStep u g r profs) st).table) code = some e'
      ∧ aget e' "Parent Node" = some (pppParent r sec)
      ∧ (aget st.table code = none → aget e' "Comment" = some "PPP")
      ∧ aget e' "IPv4" = some sec.address := by
  induction items generalizing st with
  | nil => cases hmem
  | cons it rest ih =>
      rw [List.foldl_cons]
      simp only [List.map_cons, List.nodup_cons] at hnd
      rcases List.mem_cons.mp hmem with hh | ht
      · subst hh
        obtain ⟨e', h1, h2, h3, _, h5⟩ := pppStep_self u g r profs st code sec
        have hrest : code ∉ rest.map Prod.fst := by simpa using hnd.1
        exact ⟨e',
          by rw [pppLoop_aget_not_mem _ _ _ _ _ _ _ hrest]; exact h1, h2, h3,
          h5⟩
      · have hne : code ≠ it.1 := by
          intro hq
          exact hnd.1 (hq ▸ (List.mem_map_of_mem Prod.fst ht))
        obtain ⟨e', h1, h2, h3, h5⟩ := ih (pppStep u g r profs st it) hnd.2 ht
        refine ⟨e', h1, h2, fun h0 => h3 ?_, h5⟩
        rw [pppStep_aget_ne _ _ _ _ _ _ _ hne]
        exact h0

/-! ### Hotspot processing lemmas -/

theorem hsFinish_self (r : RouterCfg) (st : PState) (code mac ip : String)
    (entry : Dict) (table : Table) (updated : Bool) (counter : ℕ) :
    ∃ e', aget (hsFinish r st code mac ip entry table updated counter).table
        code = some e'
      ∧ aget e' "Parent Node" = some ("HS-" ++ r.name)
      ∧ aget e' "Comment" = aget entry "Comment"
      ∧ aget e' "Circuit ID" = aget entry "Circuit ID" := by
  simp only [hsFinish]
  exact ⟨_, (upsert_core table code entry _ _ _ _ _ _ _).1,
    (upsert_core table code entry _ _ _ _ _ _ _).2.1,
    (upsert_core table code entry _ _ _ _ _ _ _).2.2.1,
    (upsert_core table code entry _ _ _ _ _ _ _).2.2.2.1⟩

theorem hsFinish_aget_ne (r : RouterCfg) (st : PState) (code mac ip : String)
    (entry : Dict) (table : Table) (updated : Bool) (counter : ℕ)
    (code' : String) (h : code' ≠ code) :
    aget (hsFinish r st code mac ip entry table updated counter).table code'
      = aget table code' := by
  simp only [hsFinish]
  rw [aget_aset_ne _ _ _ _ h]

theorem hsStep_skip (g : ℕ → String) (r : RouterCfg) (st : PState)
    (user : HsUserR) (h : hsCode r user = none) :
    hsStep g r st user = st := by
  simp only [hsStep, h]

theorem hsStep_self (g : ℕ → String) (r : RouterCfg) (st : PState)
    (user : HsUserR) (code : String) (hc : hsCode r user = some code) :
    ∃ e', aget (hsStep g r st user).table code = some e'
      ∧ (aget st.table code = none → aget e' "Comment" = some "HS")
      ∧ (∀ e0, aget st.table code = some e0 →
          aget e' "Circuit ID" = aget e0 "Circuit ID") := by
  simp only [hsStep, hc]
  cases hf : aget st.table code with
  | none =>
      obtain ⟨e', h1, _, h3, h4⟩ := hsFinish_self r st code user.macAddress
        user.address
        (create_new_entry (g st.counter) (g (st.counter + 1)) code r.name
          "HS" user.macAddress user.address)
        (aset st.table code (create_new_entry (g st.counter)
          (g (st.counter + 1)) code r.name "HS" user.macAddress user.address))
        true (st.counter + 2)
      exact ⟨e', h1, fun _ => by rw [h3]; rfl,
        fun e0 h0 => Option.noConfusion h0⟩
  | some e =>
      obtain ⟨e', h1, _, h3, h4⟩ := hsFinish_self r st code user.macAddress
        user.address e st.table st.updated st.counter
      refine ⟨e', h1, fun h0 => Option.noConfusion h0, fun e0 h0 => ?_⟩
      injection h0 with he
      subst he
      exact h4

theorem hsStep_aget_ne (g : ℕ → String) (r : RouterCfg) (st : PState)
    (user : HsUserR) (code : String)
    (h : ∀ c, hsCode r user = some c → code ≠ c) :
    aget (hsStep g r st user).table code = aget st.table code := by
  cases hc : hsCode r user with
  | none => rw [hsStep_skip _ _ _ _ hc]
  | some c =>
      have hne := h c hc
      simp only [hsStep, hc]
      cases hf : aget st.table c with
      | some e => rw [hsFinish_aget_ne _ _ _ _ _ _ _ _ _ _ hne]
      | none =>
          rw [hsFinish_aget_ne _ _ _ _ _ _ _ _ _ _ hne,
            aget_aset_ne _ _ _ _ hne]

theorem hsStep_isSome (g : ℕ → String) (r : RouterCfg) (st : PState)
    (user : HsUserR) (code : String) (h : (aget st.table code).isSome) :
    (aget (hsStep g r st user).table code).isSome := by
  cases hc : hsCode r user with
  | none => rw [hsStep_skip _ _ _ _ hc]; exact h
  | some c =>
      by_cases hk : code = c
      · subst hk
        obtain ⟨e', h1, _⟩ := hsStep_self g r st user code hc
        rw [h1]
        rfl
      · rw [hsStep_aget_ne _ _ _ _ _ (fun c' hc' => by
          rw [hc] at hc'
          injection hc' with hcc
          subst hcc
          exact hk)]
        exact h

theorem hsStep_preserve_cid (g : ℕ → String) (r : RouterCfg) (st : PState)
    (user : HsUserR) (code : String) (e : Dict)
    (hf : aget st.table code = some e) :
    ∃ e', aget (hsStep g r st user).table code = some e'
      ∧ aget e' "Circuit ID" = aget e "Circuit ID" := by
  cases hc : hsCode r user with
  | none => exact ⟨e, by rw [hsStep_skip _ _ _ _ hc]; exact hf, rfl⟩
  | some c =>
      by_cases hk : code = c
      · subst hk
        obtain ⟨e', h1, _, h3⟩ := hsStep_self g r st user code hc
        exact ⟨e', h1, h3 e hf⟩
      · refine ⟨e, ?_, rfl⟩
        rw [hsStep_aget_ne _ _ _ _ _ (fun c' hc' => by
          rw [hc] at hc'
          injection hc' with hcc
          subst hcc
          exact hk)]
        exact hf

theorem hsStep_users_some (g : ℕ → String) (r : RouterCfg) (st : PState)
    (user : HsUserR) (code : String) (hc : hsCode r user = some code) :
    (hsStep g r st user).users = st.users ++ [code] := by
  simp only [hsStep, hc]
  cases hf : aget st.table code with
  | some e => rfl
  | none => rfl

theorem hsLoop_isSome (g : ℕ → String) (r : RouterCfg)
    (items : List HsUserR) (st : PState) (code : String)
    (h : (aget st.table code).isSome) :
    (aget ((items.foldl (hsStep g r) st).table) code).isSome := by
  induction items generalizing st with
  | nil => exact h
  | cons it rest ih =>
      rw [List.foldl_cons]
      exact ih _ (hsStep_isSome _ _ _ _ _ h)

theorem hsLoop_preserve_cid (g : ℕ → String) (r : RouterCfg)
    (items : List HsUserR) (st : PState) (code : String) (e : Dict)
    (hf : aget st.table code = some e) :
    ∃ e', aget ((items.foldl (hsStep g r) st).table) code = some e'
      ∧ aget e' "Circuit ID" = aget e "Circuit ID" := by
  induction items generalizing st e with
  | nil => exact ⟨e, hf, rfl⟩
  | cons it rest ih =>
      rw [List.foldl_cons]
      obtain ⟨e1, h1, h2⟩ := hsStep_preserve_cid g r st it code e hf
      obtain ⟨e', h1', h2'⟩ := ih _ _ h1
      exact ⟨e', h1', by rw [h2', h2]⟩

theorem hsLoop_users_present (g : ℕ → String) (r : RouterCfg)
    (items : List HsUserR) (st : PState)
    (hinv : ∀ c ∈ st.users, (aget st.table c).isSome) :
    ∀ c ∈ (items.foldl (hsStep g r) st).users,
      (aget ((items.foldl (hsStep g r) st).table) c).isSome := by
  induction items generalizing st with
  | nil => exact hinv
  | cons it rest ih =>
      rw [List.foldl_cons]
      apply ih
      intro c hc
      cases hcode : hsCode r it with
      | none =>
          rw [hsStep_skip _ _ _ _ hcode] at hc ⊢
          exact hinv c hc
      | some c0 =>
          rw [hsStep_users_some _ _ _ _ _ hcode] at hc
          rcases List.mem_append.mp hc with hold | hnew
          · exact hsStep_isSome _ _ _ _ _ (hinv c hold)
          · simp only [List.mem_singleton] at hnew
            subst hnew
            obtain ⟨e', h1, _⟩ := hsStep_self g r st it c hcode
            rw [h1]
            rfl

/-! ### DHCP processing lemmas -/

/-- Counterpart of `upsert_core` for the DHCP update values, which also
carry a `Comment` key. -/
theorem dhcp_core (t : Table) (code : String) (e : Dict)
    (pn mac ip cmt dmax umax dmin umin : String) :
    aget (aset t code
        (update_entry_values e
          [("Parent Node", pn), ("MAC", mac), ("IPv4", ip), ("Comment", cmt),
           ("Download Max Mbps", dmax), ("Upload Max Mbps", umax),
           ("Download Min Mbps", dmin), ("Upload Min Mbps", umin)]).1) code
      = some (update_entry_values e
          [("Parent Node", pn), ("MAC", mac), ("IPv4", ip), ("Comment", cmt),
           ("Download Max Mbps", dmax), ("Upload Max Mbps", umax),
           ("Download Min Mbps", dmin), ("Upload Min Mbps", umin)]).1
    ∧ aget (update_entry_values e
          [("Parent Node", pn), ("MAC", mac), ("IPv4", ip), ("Comment", cmt),
           ("Download Max Mbps", dmax), ("Upload Max Mbps", umax),
           ("Download Min Mbps", dmin), ("Upload Min Mbps", umin)]).1
        "Comment" = some cmt
    ∧ aget (update_entry_values e
          [("Parent Node", pn), ("MAC", mac), ("IPv4", ip), ("Comment", cmt),
           ("Download Max Mbps", dmax), ("Upload Max Mbps", umax),
           ("Download Min Mbps", dmin), ("Upload Min Mbps", umin)]).1
        "Circuit ID" = aget e "Circuit ID" := by
  have hnd : (([("Parent Node", pn), ("MAC", mac), ("IPv4", ip),
      ("Comment", cmt), ("Download Max Mbps", dmax), ("Upload Max Mbps", umax),
      ("Download Min Mbps", dmin), ("Upload Min Mbps", umin)] : Dict).map
        Prod.fst).Nodup := by
    show (["Parent Node", "MAC", "IPv4", "Comment", "Download Max Mbps",
      "Upload Max Mbps", "Download Min Mbps", "Upload Min Mbps"] :
        List String).Nodup
    decide
  have hci : "Circuit ID" ∉ (([("Parent Node", pn), ("MAC", mac),
      ("IPv4", ip), ("Comment", cmt), ("Download Max Mbps", dmax),
      ("Upload Max Mbps", umax), ("Download Min Mbps", dmin),
      ("Upload Min Mbps", umin)] : Dict).map Prod.fst) := by
    show "Circuit ID" ∉ (["Parent Node", "MAC", "IPv4", "Comment",
      "Download Max Mbps", "Upload Max Mbps", "Download Min Mbps",
      "Upload Min Mbps"] : List String)
    decide
  refine ⟨aget_aset_self _ _ _, ?_, uev_aget_not_mem _ _ _ hci⟩
  exact uev_aget_mem _ _ _ _ hnd
    (List.mem_cons_of_mem _ (List.mem_cons_of_mem _
      (List.mem_cons_of_mem _ (List.mem_cons_self _ _))))

theorem dhcpFinish_self (r : RouterCfg) (st : PState)
    (code mac ip hostname : String) (entry : Dict) (table : Table)
    (updated : Bool) (counter : ℕ) :
    ∃ e', aget (dhcpFinish r st code mac ip hostname entry table updated
        counter).table code = some e'
      ∧ aget e' "Comment" = some (if hostname ≠ "" then hostname else "DHCP")
      ∧ aget e' "Circuit ID" = aget entry "Circuit ID" := by
  simp only [dhcpFinish]
  exact ⟨_, (dhcp_core table code entry _ _ _ _ _ _ _ _).1,
    (dhcp_core table code entry _ _ _ _ _ _ _ _).2.1,
    (dhcp_core table code entry _ _ _ _ _ _ _ _).2.2⟩

theorem dhcpFinish_aget_ne (r : RouterCfg) (st : PState)
    (code mac ip hostname : String) (entry : Dict) (table : Table)
    (updated : Bool) (counter : ℕ) (code' : String) (h : code' ≠ code) :
    aget (dhcpFinish r st code mac ip hostname entry table updated
        counter).table code' = aget table code' := by
  simp only [dhcpFinish]
  rw [aget_aset_ne _ _ _ _ h]

theorem dhcpStep_skip (g : ℕ → String) (r : RouterCfg) (st : PState)
    (lease : LeaseR) (h : dhcpCode lease = none) :
    dhcpStep g r st lease = st := by
  simp only [dhcpStep, h]

theorem dhcpStep_self (g : ℕ → String) (r : RouterCfg) (st : PState)
    (lease : LeaseR) (code : String) (hc : dhcpCode lease = some code) :
    ∃ e', aget (dhcpStep g r st lease).table code = some e'
      ∧ aget e' "Comment"
          = some (if lease.hostName ≠ "" then lease.hostName else "DHCP")
      ∧ (∀ e0, aget st.table code = some e0 →
          aget e' "Circuit ID" = aget e0 "Circuit ID") := by
  simp only [dhcpStep, hc]
  cases hf : aget st.table code with
  | none =>
      obtain ⟨e', h1, h2, _⟩ := dhcpFinish_self r st code lease.macAddress
        lease.address lease.hostName
        (create_new_entry (g st.counter) (g (st.counter + 1)) code r.name
          "DHCP" lease.macAddress lease.address)
        (aset st.table code (create_new_entry (g st.counter)
          (g (st.counter + 1)) code r.name "DHCP" lease.macAddress
          lease.address))
        true (st.counter + 2)
      exact ⟨e', h1, h2, fun e0 h0 => Option.noConfusion h0⟩
  | some e =>
      obtain ⟨e', h1, h2, h3⟩ := dhcpFinish_self r st code lease.macAddress
        lease.address lease.hostName e st.table st.updated st.counter
      refine ⟨e', h1, h2, fun e0 h0 => ?_⟩
      injection h0 with he
      subst he
      exact h3

theorem dhcpStep_aget_ne (g : ℕ → String) (r : RouterCfg) (st : PState)
    (lease : LeaseR) (code : String)
    (h : ∀ c, dhcpCode lease = some c → code ≠ c) :
    aget (dhcpStep g r st lease).table code = aget st.table code := by
  cases hc : dhcpCode lease with
  | none => rw [dhcpStep_skip _ _ _ _ hc]
  | some c =>
      have hne := h c hc
      simp only [dhcpStep, hc]
      cases hf : aget st.table c with
      | some e => rw [dhcpFinish_aget_ne _ _ _ _ _ _ _ _ _ _ _ hne]
      | none =>
          rw [dhcpFinish_aget_ne _ _ _ _ _ _ _ _ _ _ _ hne,
            aget_aset_ne _ _ _ _ hne]

theorem dhcpStep_isSome (g : ℕ → String) (r : RouterCfg) (st : PState)
    (lease : LeaseR) (code : String) (h : (aget st.table code).isSome) :
    (aget (dhcpStep g r st lease).table code).isSome := by
  cases hc : dhcpCode lease with
  | none => rw [dhcpStep_skip _ _ _ _ hc]; exact h
  | some c =>
      by_cases hk : code = c
      · subst hk
        obtain ⟨e', h1, _⟩ := dhcpStep_self g r st lease code hc
        rw [h1]
        rfl
      · rw [dhcpStep_aget_ne _ _ _ _ _ (fun c' hc' => by
          rw [hc] at hc'
          injection hc' with hcc
          subst hcc
          exact hk)]
        exact h

theorem dhcpStep_preserve_cid (g : ℕ → String) (r : RouterCfg) (st : PState)
    (lease : LeaseR) (code : String) (e : Dict)
    (hf : aget st.table code = some e) :
    ∃ e', aget (dhcpStep g r st lease).table code = some e'
      ∧ aget e' "Circuit ID" = aget e "Circuit ID" := by
  cases hc : dhcpCode lease with
  | none => exact ⟨e, by rw [dhcpStep_skip _ _ _ _ hc]; exact hf, rfl⟩
  | some c =>
      by_cases hk : code = c
      · subst hk
        obtain ⟨e', h1, _, h3⟩ := dhcpStep_self g r st lease code hc
        exact ⟨e', h1, h3 e hf⟩
      · refine ⟨e, ?_, rfl⟩
        rw [dhcpStep_aget_ne _ _ _ _ _ (fun c' hc' => by
          rw [hc] at hc'
          injection hc' with hcc
          subst hcc
          exact hk)]
        exact hf

theorem dhcpStep_users_some (g : ℕ → String) (r : RouterCfg) (st : PState)
    (lease : LeaseR) (code : String) (hc : dhcpCode lease = some code) :
    (dhcpStep g r st lease).users = st.users ++ [code] := by
  simp only [dhcpStep, hc]
  cases hf : aget st.table code with
  | some e => rfl
  | none => rfl

theorem dhcpLoop_isSome (g : ℕ → String) (r : RouterCfg)
    (items : List LeaseR) (st : PState) (code : String)
    (h : (aget st.table code).isSome) :
    (aget ((items.foldl (dhcpStep g r) st).table) code).isSome := by
  induction items generalizing st with
  | nil => exact h
  | cons it rest ih =>
      rw [List.foldl_cons]
      exact ih _ (dhcpStep_isSome _ _ _ _ _ h)

theorem dhcpLoop_preserve_cid (g : ℕ → String) (r : RouterCfg)
    (items : List LeaseR) (st : PState) (code : String) (e : Dict)
    (hf : aget st.table code = some e) :
    ∃ e', aget ((items.foldl (dhcpStep g r) st).table) code = some e'
      ∧ aget e' "Circuit ID" = aget e "Circuit ID" := by
  induction items generalizing st e with
  | nil => exact ⟨e, hf, rfl⟩
  | cons it rest ih =>
      rw [List.foldl_cons]
      obtain ⟨e1, h1, h2⟩ := dhcpStep_preserve_cid g r st it code e hf
      obtain ⟨e', h1', h2'⟩ := ih _ _ h1
      exact ⟨e', h1', by rw [h2', h2]⟩

theorem dhcpLoop_users_present (g : ℕ → String) (r : RouterCfg)
    (items : List LeaseR) (st : PState)
    (hinv : ∀ c ∈ st.users, (aget st.table c).isSome) :
    ∀ c ∈ (items.foldl (dhcpStep g r) st).users,
      (aget ((items.foldl (dhcpStep g r) st).table) c).isSome := by
  induction items generalizing st with
  | nil => exact hinv
  | cons it rest ih =>
      rw [List.foldl_cons]
      apply ih
      intro c hc
      cases hcode : dhcpCode it with
      | none =>
          rw [dhcpStep_skip _ _ _ _ hcode] at hc ⊢
          exact hinv c hc
      | some c0 =>
          rw [dhcpStep_users_some _ _ _ _ _ hcode] at hc
          rcases List.mem_append.mp hc with hold | hnew
          · exact dhcpStep_isSome _ _ _ _ _ (hinv c hold)
          · simp only [List.mem_singleton] at hnew
            subst hnew
            obtain ⟨e', h1, _⟩ := dhcpStep_self g r st it c hcode
            rw [h1]
            rfl

/-! ### Static-device processing lemmas -/

theorem staticStep_skip (g : ℕ → String) (st : SState) (device : Dict)
    (h : staticCode device = none) : staticStep g st device = st := by
  simp only [staticStep, h]

theorem staticStep_self (g : ℕ → String) (st : SState) (device : Dict)
    (cn : String) (hc : staticCode device = some cn) :
    ∃ e', aget (staticStep g st device).table cn = some e'
      ∧ (aget st.table cn = none →
          aget e' "Comment" = some ((aget device "Comment").getD ""))
      ∧ (∀ e0, aget st.table cn = some e0 →
          aget device "Circuit ID" = none →
          aget e' "Circuit ID" = aget e0 "Circuit ID") := by
  simp only [staticStep, hc]
  cases hf : aget st.table cn with
  | none =>
      refine ⟨_, aget_aset_self _ _ _, fun _ => ?_,
        fun e0 h0 => Option.noConfusion h0⟩
      rfl
  | some e =>
      refine ⟨_, aget_aset_self _ _ _, fun h0 => Option.noConfusion h0,
        fun e0 h0 hdev => ?_⟩
      injection h0 with he
      subst he
      exact uev_aget_not_mem _ _ _ ((aget_none_iff _ _).mp hdev)

theorem staticStep_aget_ne (g : ℕ → String) (st : SState) (device : Dict)
    (code : String) (h : ∀ c, staticCode device = some c → code ≠ c) :
    aget (staticStep g st device).table code = aget st.table code := by
  cases hc : staticCode device with
  | none => rw [staticStep_skip _ _ _ hc]
  | some c =>
      have hne := h c hc
      simp only [staticStep, hc]
      cases hf : aget st.table c with
      | some e => rw [aget_aset_ne _ _ _ _ hne]
      | none => rw [aget_aset_ne _ _ _ _ hne]

theorem staticStep_isSome (g : ℕ → String) (st : SState) (device : Dict)
    (code : String) (h : (aget st.table code).isSome) :
    (aget (staticStep g st device).table code).isSome := by
  cases hc : staticCode device with
  | none => rw [staticStep_skip _ _ _ hc]; exact h
  | some c =>
      by_cases hk : code = c
      · subst hk
        obtain ⟨e', h1, _⟩ := staticStep_self g st device code hc
        rw [h1]
        rfl
      · rw [staticStep_aget_ne _ _ _ _ (fun c' hc' => by
          rw [hc] at hc'
          injection hc' with hcc
          subst hcc
          exact hk)]
        exact h

theorem staticStep_preserve_cid (g : ℕ → String) (st : SState)
    (device : Dict) (code : String) (e : Dict)
    (hdev : aget device "Circuit ID" = none)
    (hf : aget st.table code = some e) :
    ∃ e', aget (staticStep g st device).table code = some e'
      ∧ aget e' "Circuit ID" = aget e "Circuit ID" := by
  cases hc : staticCode device with
  | none => exact ⟨e, by rw [staticStep_skip _ _ _ hc]; exact hf, rfl⟩
  | some c =>
      by_cases hk : code = c
      · subst hk
        obtain ⟨e', h1, _, h3⟩ := staticStep_self g st device code hc
        exact ⟨e', h1, h3 e hf hdev⟩
      · refine ⟨e, ?_, rfl⟩
        rw [staticStep_aget_ne _ _ _ _ (fun c' hc' => by
          rw [hc] at hc'
          injection hc' with hcc
          subst hcc
          exact hk)]
        exact hf

theorem staticStep_codes_some (g : ℕ → String) (st : SState) (device : Dict)
    (cn : String) (hc : staticCode device = some cn) :
    (staticStep g st device).codes = st.codes ++ [cn] := by
  simp only [staticStep, hc]
  cases hf : aget st.table cn with
  | some e => rfl
  | none => rfl

theorem staticLoop_isSome (g : ℕ → String) (devices : List Dict)
    (st : SState) (code : String) (h : (aget st.table code).isSome) :
    (aget ((devices.foldl (staticStep g) st).table) code).isSome := by
  induction devices generalizing st with
  | nil => exact h
  | cons d rest ih =>
      rw [List.foldl_cons]
      exact ih _ (staticStep_isSome _ _ _ _ h)

theorem staticLoop_preserve_cid (g : ℕ → String) (devices : List Dict)
    (st : SState) (code : String) (e : Dict)
    (hdev : ∀ d ∈ devices, aget d "Circuit ID" = none)
    (hf : aget st.table code = some e) :
    ∃ e', aget ((devices.foldl (staticStep g) st).table) code = some e'
      ∧ aget e' "Circuit ID" = aget e "Circuit ID" := by
  induction devices generalizing st e with
  | nil => exact ⟨e, hf, rfl⟩
  | cons d rest ih =>
      rw [List.foldl_cons]
      obtain ⟨e1, h1, h2⟩ := staticStep_preserve_cid g st d code e
        (hdev d (List.mem_cons_self _ _)) hf
      obtain ⟨e', h1', h2'⟩ :=
        ih _ _ (fun d' hd' => hdev d' (List.mem_cons_of_mem _ hd')) h1
      exact ⟨e', h1', by rw [h2', h2]⟩

theorem staticLoop_codes_present (g : ℕ → String) (devices : List Dict)
    (st : SState)
    (hinv : ∀ c ∈ st.codes, (aget st.table c).isSome) :
    ∀ c ∈ (devices.foldl (staticStep g) st).codes,
      (aget ((devices.foldl (staticStep g) st).table) c).isSome := by
  induction devices generalizing st with
  | nil => exact hinv
  | cons d rest ih =>
      rw [List.foldl_cons]
      apply ih
      intro c hc
      cases hcode : staticCode d with
      | none =>
          rw [staticStep_skip _ _ _ hcode] at hc ⊢
          exact hinv c hc
      | some c0 =>
          rw [staticStep_codes_some _ _ _ _ hcode] at hc
          rcases List.mem_append.mp hc with hold | hnew
          · exact staticStep_isSome _ _ _ _ (hinv c hold)
          · simp only [List.mem_singleton] at hnew
            subst hnew
            obtain ⟨e', h1, _⟩ := staticStep_self g st d c hcode
            rw [h1]
            rfl

/-! ### Process-level lemmas -/

theorem process_ppp_isSome (u : Bool) (g : ℕ → String) (r : RouterCfg)
    (snap : RouterSnap) (t : Table) (n : NCfg) (c : ℕ) (code : String)
    (h : (aget t code).isSome) :
    (aget (process_pppoe_users u g r snap t n c).table code).isSome := by
  unfold process_pppoe_users
  split
  · exact h
  · exact pppLoop_isSome _ _ _ _ _ _ _ h

theorem process_ppp_preserve_cid (u : Bool) (g : ℕ → String) (r : RouterCfg)
    (snap : RouterSnap) (t : Table) (n : NCfg) (c : ℕ) (code : String)
    (e : Dict) (hf : aget t code = some e) :
    ∃ e', aget (process_pppoe_users u g r snap t n c).table code = some e'
      ∧ aget e' "Circuit ID" = aget e "Circuit ID" := by
  unfold process_pppoe_users
  split
  · exact ⟨e, hf, rfl⟩
  · exact pppLoop_preserve_cid _ _ _ _ _ _ _ _ hf

theorem process_ppp_users_present (u : Bool) (g : ℕ → String)
    (r : RouterCfg) (snap : RouterSnap) (t : Table) (n : NCfg) (c : ℕ) :
    ∀ c' ∈ (process_pppoe_users u g r snap t n c).users,
      (aget (process_pppoe_users u g r snap t n c).table c').isSome := by
  unfold process_pppoe_users
  split
  · intro c' hc'
    exact absurd hc' (by simp)
  · exact pppLoop_users_present _ _ _ _ _ _
      (fun c' hc' => absurd hc' (by simp))

theorem process_ppp_self (u : Bool) (g : ℕ → String) (r : RouterCfg)
    (snap : RouterSnap) (t : Table) (n : NCfg) (c : ℕ) (code : String)
    (sec : PppSecretR) (hen : r.pppoeEnabled = true)
    (hmem : (code, sec) ∈ activeSecrets snap.secrets snap.active) :
    ∃ e', aget (process_pppoe_users u g r snap t n c).table code = some e'
      ∧ aget e' "Parent Node" = some (pppParent r sec)
      ∧ (aget t code = none → aget e' "Comment" = some "PPP")
      ∧ aget e' "IPv4" = some sec.address := by
  unfold process_pppoe_users
  rw [if_neg (by simp [hen])]
  exact pppLoop_self u g r snap.profiles _ _ code sec
    (activeSecrets_keys_nodup _ _) hmem

theorem process_hs_isSome (g : ℕ → String) (r : RouterCfg)
    (snap : RouterSnap) (t : Table) (n : NCfg) (c : ℕ) (code : String)
    (h : (aget t code).isSome) :
    (aget (process_hotspot_users g r snap t n c).table code).isSome := by
  unfold process_hotspot_users
  split
  · exact h
  · exact hsLoop_isSome _ _ _ _ _ h

theorem process_hs_preserve_cid (g : ℕ → String) (r : RouterCfg)
    (snap : RouterSnap) (t : Table) (n : NCfg) (c : ℕ) (code : String)
    (e : Dict) (hf : aget t code = some e) :
    ∃ e', aget (process_hotspot_users g r snap t n c).table code = some e'
      ∧ aget e' "Circuit ID" = aget e "Circuit ID" := by
  unfold process_hotspot_users
  split
  · exact ⟨e, hf, rfl⟩
  · exact hsLoop_preserve_cid _ _ _ _ _ _ hf

theorem process_hs_users_present (g : ℕ → String) (r : RouterCfg)
    (snap : RouterSnap) (t : Table) (n : NCfg) (c : ℕ) :
    ∀ c' ∈ (process_hotspot_users g r snap t n c).users,
      (aget (process_hotspot_users g r snap t n c).table c').isSome := by
  unfold process_hotspot_users
  split
  · intro c' hc'
    exact absurd hc' (by simp)
  · exact hsLoop_users_present _ _ _ _ (fun c' hc' => absurd hc' (by simp))

theorem process_dhcp_isSome (g : ℕ → String) (r : RouterCfg)
    (snap : RouterSnap) (t : Table) (n : NCfg) (c : ℕ) (code : String)
    (h : (aget t code).isSome) :
    (aget (process_dhcp_leases g r snap t n c).table code).isSome := by
  unfold process_dhcp_leases
  split
  · exact h
  · exact dhcpLoop_isSome _ _ _ _ _ h

theorem process_dhcp_preserve_cid (g : ℕ → String) (r : RouterCfg)
    (snap : RouterSnap) (t : Table) (n : NCfg) (c : ℕ) (code : String)
    (e : Dict) (hf : aget t code = some e) :
    ∃ e', aget (process_dhcp_leases g r snap t n c).table code = some e'
      ∧ aget e' "Circuit ID" = aget e "Circuit ID" := by
  unfold process_dhcp_leases
  split
  · exact ⟨e, hf, rfl⟩
  · exact dhcpLoop_preserve_cid _ _ _ _ _ _ hf

theorem process_dhcp_users_present (g : ℕ → String) (r : RouterCfg)
    (snap : RouterSnap) (t : Table) (n : NCfg) (c : ℕ) :
    ∀ c' ∈ (process_dhcp_leases g r snap t n c).users,
      (aget (process_dhcp_leases g r snap t n c).table c').isSome := by
  unfold process_dhcp_leases
  split
  · intro c' hc'
    exact absurd hc' (by simp)
  · exact dhcpLoop_users_present _ _ _ _ (fun c' hc' => absurd hc' (by simp))

/-! ### Router-loop lemmas -/

theorem routerStep_isSome (u : Bool) (g : ℕ → String) (st : MState)
    (ri : RouterInput) (code : String) (h : (aget st.table code).isSome) :
    (aget (routerStep u g st ri).table code).isSome := by
  obtain ⟨cfg, conn⟩ := ri
  cases conn with
  | none => exact h
  | some snap =>
      simp only [routerStep]
      exact process_dhcp_isSome _ _ _ _ _ _ _
        (process_hs_isSome _ _ _ _ _ _ _
          (process_ppp_isSome _ _ _ _ _ _ _ _ h))

theorem routerStep_preserve_cid (u : Bool) (g : ℕ → String) (st : MState)
    (ri : RouterInput) (code : String) (e : Dict)
    (hf : aget st.table code = some e) :
    ∃ e', aget (routerStep u g st ri).table code = some e'
      ∧ aget e' "Circuit ID" = aget e "Circuit ID" := by
  obtain ⟨cfg, conn⟩ := ri
  cases conn with
  | none => exact ⟨e, hf, rfl⟩
  | some snap =>
      simp only [routerStep]
      obtain ⟨e1, h1, h2⟩ := process_ppp_preserve_cid u g cfg snap st.table
        st.ncfg st.counter code e hf
      obtain ⟨e2, h3, h4⟩ := process_hs_preserve_cid g cfg snap _ _ _ code
        e1 h1
      obtain ⟨e3, h5, h6⟩ := process_dhcp_preserve_cid g cfg snap _ _ _ code
        e2 h3
      exact ⟨e3, h5, by rw [h6, h4, h2]⟩

theorem routerStep_users_present (u : Bool) (g : ℕ → String) (st : MState)
    (ri : RouterInput)
    (hinv : ∀ c ∈ st.allUsers, (aget st.table c).isSome) :
    ∀ c ∈ (routerStep u g st ri).allUsers,
      (aget (routerStep u g st ri).table c).isSome := by
  obtain ⟨cfg, conn⟩ := ri
  cases conn with
  | none => exact hinv
  | some snap =>
      simp only [routerStep]
      intro c hc
      rcases List.mem_append.mp hc with hc3 | hd
      · rcases List.mem_append.mp hc3 with hc2 | hh
        · rcases List.mem_append.mp hc2 with hold | hp
          · exact process_dhcp_isSome _ _ _ _ _ _ _
              (process_hs_isSome _ _ _ _ _ _ _
                (process_ppp_isSome _ _ _ _ _ _ _ _ (hinv c hold)))
          · exact process_dhcp_isSome _ _ _ _ _ _ _
              (process_hs_isSome _ _ _ _ _ _ _
                (process_ppp_users_present _ _ _ _ _ _ _ c hp))
        · exact process_dhcp_isSome _ _ _ _ _ _ _
            (process_hs_users_present _ _ _ _ _ _ c hh)
      · exact process_dhcp_users_present _ _ _ _ _ _ c hd

theorem routerLoop_isSome (u : Bool) (g : ℕ → String)
    (rs : List RouterInput) (st : MState) (code : String)
    (h : (aget st.table code).isSome) :
    (aget ((rs.foldl (routerStep u g) st).table) code).isSome := by
  induction rs generalizing st with
  | nil => exact h
  | cons ri rest ih =>
      rw [List.foldl_cons]
      exact ih _ (routerStep_isSome _ _ _ _ _ h)

theorem routerLoop_preserve_cid (u : Bool) (g : ℕ → String)
    (rs : List RouterInput) (st : MState) (code : String) (e : Dict)
    (hf : aget st.table code = some e) :
    ∃ e', aget ((rs.foldl (routerStep u g) st).table) code = some e'
      ∧ aget e' "Circuit ID" = aget e "Circuit ID" := by
  induction rs generalizing st e with
  | nil => exact ⟨e, hf, rfl⟩
  | cons ri rest ih =>
      rw [List.foldl_cons]
      obtain ⟨e1, h1, h2⟩ := routerStep_preserve_cid u g st ri code e hf
      obtain ⟨e', h1', h2'⟩ := ih _ _ h1
      exact ⟨e', h1', by rw [h2', h2]⟩

theorem routerLoop_users_present (u : Bool) (g : ℕ → String)
    (rs : List RouterInput) (st : MState)
    (hinv : ∀ c ∈ st.allUsers, (aget st.table c).isSome) :
    ∀ c ∈ (rs.foldl (routerStep u g) st).allUsers,
      (aget ((rs.foldl (routerStep u g) st).table) c).isSome := by
  induction rs generalizing st with
  | nil => exact hinv
  | cons ri rest ih =>
      rw [List.foldl_cons]
      exact ih _ (routerStep_users_present _ _ _ _ hinv)

/-! ### Cycle-level lemmas -/

theorem contains_iff_mem (l : List String) (a : String) :
    l.contains a = true ↔ a ∈ l := by
  induction l with
  | nil => simp
  | cons x xs ih =>
      by_cases hx : x = a
      · subst hx
        simp [List.contains]
      · constructor
        · intro h
          rcases List.mem_cons.mp ((List.elem_iff).mp h) with h1 | h2
          · exact List.mem_cons.mpr (Or.inl h1)
          · exact List.mem_cons.mpr (Or.inr h2)
        · intro h
          exact List.elem_iff.mpr h

/-- The pruned table of a cycle, keyed: an entry survives exactly when its
name is contained in the observed-user list. -/
theorem runCycle_aget (gen : ℕ → String) (c : ℕ) (t0 : Table) (n0 : NCfg)
    (inp : CycleInput) (code : String) :
    aget (runCycle gen c t0 n0 inp).table code
      = if ((mergedState gen c t0 n0 inp).allUsers
            ++ (staticState gen c t0 n0 inp).codes).contains code
        then aget (staticState gen c t0 n0 inp).table code
        else none :=
  aget_filter _ _ _

theorem mergedState_users_present (gen : ℕ → String) (c : ℕ) (t0 : Table)
    (n0 : NCfg) (inp : CycleInput) :
    ∀ c' ∈ (mergedState gen c t0 n0 inp).allUsers,
      (aget (mergedState gen c t0 n0 inp).table c').isSome :=
  routerLoop_users_present _ _ _ _ (fun c' hc' => absurd hc' (by simp))

/-- After a full cycle an entry is present if and only if its circuit name
was observed by some processed source this cycle. -/
theorem cycle_isSome_iff_mem_aux (gen : ℕ → String) (c : ℕ) (t0 : Table)
    (n0 : NCfg) (inp : CycleInput) (code : String) :
    (aget (runCycle gen c t0 n0 inp).table code).isSome
      ↔ code ∈ (runCycle gen c t0 n0 inp).allUsers := by
  have hall : (runCycle gen c t0 n0 inp).allUsers
      = (mergedState gen c t0 n0 inp).allUsers
        ++ (staticState gen c t0 n0 inp).codes := rfl
  rw [runCycle_aget, hall]
  constructor
  · intro h
    by_cases hcont : ((mergedState gen c t0 n0 inp).allUsers
        ++ (staticState gen c t0 n0 inp).codes).contains code
    · exact (contains_iff_mem _ _).mp hcont
    · rw [if_neg hcont] at h
      simp at h
  · intro h
    rw [if_pos ((contains_iff_mem _ _).mpr h)]
    rcases List.mem_append.mp h with h1 | h2
    · exact staticLoop_isSome _ _ _ _
        (mergedState_users_present gen c t0 n0 inp code h1)
    · exact staticLoop_codes_present gen inp.staticDevices
        { codes := [], updated := false,
          table := (mergedState gen c t0 n0 inp).table,
          counter := (mergedState gen c t0 n0 inp).counter }
        (fun c' hc' => absurd hc' (by simp)) code h2

/-! ### Claim theorems -/

/-- C1 (amended): pruning has no grace window and no kind exemption — an
entry survives a cycle if and only if its circuit name was observed this
cycle by some processed source (router snapshot or static list); any
entry, `Static` ones included, whose name was not observed is deleted in
that same cycle. -/
theorem prune_keeps_exactly_observed (gen : ℕ → String) (c : ℕ)
    (t0 : Table) (n0 : NCfg) (inp : CycleInput) (code : String) :
    (aget (runCycle gen c t0 n0 inp).table code).isSome
      ↔ code ∈ (runCycle gen c t0 n0 inp).allUsers :=
  cycle_isSome_iff_mem_aux gen c t0 n0 inp code

/-- C1 counterexample: `u1` (a PPP entry seen 120 s earlier, far inside
the claimed 1200 s grace window) and `s1` (a `Static`-tagged entry) are
both deleted in the very cycle they go unobserved. -/
theorem grace_window_counterexample :
    entryField cycleRes1.table "u1" "Comment" = some "PPP"
    ∧ entryField cycleRes1.table "s1" "Comment" = some "Static"
    ∧ aget cycleRes2.table "u1" = none
    ∧ aget cycleRes2.table "s1" = none
    ∧ SCAN_INTERVAL < 1200 := by
  decide

/-- C2 (amended): no IP-reservation check exists.  The dynamic merge is
wholly independent of the static device list (which is merged only after
the router loop), and every active PPP user is upserted with its session
address no matter which addresses static records hold. -/
theorem dynamic_merge_ignores_static_reservations :
    (∀ (gen : ℕ → String) (c : ℕ) (t0 : Table) (n0 : NCfg)
        (rts : List RouterInput) (sd sd' : List Dict) (upb : Bool),
        mergedState gen c t0 n0
            { routers := rts, staticDevices := sd,
              useProfileBandwidth := upb }
          = mergedState gen c t0 n0
            { routers := rts, staticDevices := sd',
              useProfileBandwidth := upb })
    ∧ (∀ (u : Bool) (g : ℕ → String) (r : RouterCfg) (snap : RouterSnap)
        (t : Table) (n : NCfg) (c : ℕ) (code : String) (sec : PppSecretR),
        r.pppoeEnabled = true →
        (code, sec) ∈ activeSecrets snap.secrets snap.active →
        ∃ e', aget (process_pppoe_users u g r snap t n c).table code
            = some e' ∧ aget e' "IPv4" = some sec.address) := by
  refine ⟨fun gen c t0 n0 rts sd sd' upb => rfl, ?_⟩
  intro u g r snap t n c code sec hen hmem
  obtain ⟨e', h1, _, _, h4⟩ := process_ppp_self u g r snap t n c code sec
    hen hmem
  exact ⟨e', h1, h4⟩

/-- Witness for `dynamic_merge_ignores_static_reservations`: the active
user `u1` is upserted with address `10.0.0.5` even though the static
device `s1` reserves that same address. -/
theorem dynamic_merge_ignores_static_reservations_witness :
    ∃ e', aget (process_pppoe_users false genId rtR snapU1 [] [] 0).table
        "u1" = some e' ∧ aget e' "IPv4" = some "10.0.0.5" := by
  exact dynamic_merge_ignores_static_reservations.2 false genId rtR snapU1
    [] [] 0 "u1"
    { name := "u1", callerId := "AA:BB", address := "10.0.0.5",
      rateLimit := some "10m/10m", profile := none }
    (by decide) (by decide)

/-- C2 counterexample: after one cycle the dynamic entry `u1` (Comment
`PPP`) and the static entry `s1` both sit in the table with the same IPv4
address `10.0.0.5` — the dynamic record was inserted, not discarded, and
static merging ran after the dynamic merge. -/
theorem static_ip_reservation_counterexample :
    entryField cycleRes1.table "u1" "Comment" = some "PPP"
    ∧ entryField cycleRes1.table "u1" "IPv4" = some "10.0.0.5"
    ∧ entryField cycleRes1.table "s1" "IPv4" = some "10.0.0.5"
    ∧ (aget cycleRes1.table "u1").isSome = true := by
  decide

/-- C3 (amended): no mode-change reset exists.  The cycle reads no
persisted mode flag; for any two consecutive cycles — in particular ones
whose `per_plan_node` flags differ — an entry present before the cycle
that survives it keeps its `Circuit ID` unchanged (assuming, as always in
practice, that static device records do not carry a `Circuit ID` key);
the table is never cleared. -/
theorem no_mode_reset_circuit_ids (gen : ℕ → String) (c : ℕ) (t0 : Table)
    (n0 : NCfg) (inp : CycleInput) (code : String) (e e' : Dict)
    (hstatic : ∀ d ∈ inp.staticDevices, aget d "Circuit ID" = none)
    (h0 : aget t0 code = some e)
    (h1 : aget (runCycle gen c t0 n0 inp).table code = some e') :
    aget e' "Circuit ID" = aget e "Circuit ID" := by
  have hm : ∃ e1, aget (mergedState gen c t0 n0 inp).table code = some e1
      ∧ aget e1 "Circuit ID" = aget e "Circuit ID" :=
    routerLoop_preserve_cid inp.useProfileBandwidth gen inp.routers
      { table := t0,
        ncfg := (update_network_json (inp.routers.map (·.cfg)) n0).1,
        counter := c, allUsers := [], anyUpdates := false } code e h0
  obtain ⟨e1, hm1, hm2⟩ := hm
  have hs : ∃ e2, aget (staticState gen c t0 n0 inp).table code = some e2
      ∧ aget e2 "Circuit ID" = aget e1 "Circuit ID" :=
    staticLoop_preserve_cid gen inp.staticDevices
      { codes := [], updated := false,
        table := (mergedState gen c t0 n0 inp).table,
        counter := (mergedState gen c t0 n0 inp).counter } code e1
      hstatic hm1
  obtain ⟨e2, hs1, hs2⟩ := hs
  rw [runCycle_aget] at h1
  by_cases hcont : ((mergedState gen c t0 n0 inp).allUsers
      ++ (staticState gen c t0 n0 inp).codes).contains code
  · rw [if_pos hcont, hs1] at h1
    injection h1 with h1'
    subst h1'
    rw [hs2, hm2]
  · rw [if_neg hcont] at h1
    cases h1

/-- Witness for `no_mode_reset_circuit_ids`: across the `per_plan_node`
toggle, `u1` keeps the `Circuit ID` generated in the previous cycle. -/
theorem no_mode_reset_circuit_ids_witness :
    ∃ e e' : Dict, aget resFlat1.table "u1" = some e
      ∧ aget resToggleActual.table "u1" = some e'
      ∧ aget e' "Circuit ID" = aget e "Circuit ID" := by
  refine ⟨(aget resFlat1.table "u1").getD [],
    (aget resToggleActual.table "u1").getD [], by decide, by decide, ?_⟩
  exact no_mode_reset_circuit_ids genId resFlat1.counter resFlat1.table
    resFlat1.ncfg cycleInpPlan "u1" _ _ (by decide) (by decide) (by decide)

/-- C3 counterexample: with the mode toggled between two cycles, the code
keeps `u1`'s old `Circuit ID` (`ID0`), whereas running the same cycle on
the table cleared by the spec's `CheckAndReset` regenerates it (`ID2`);
the two outcomes differ, so the table was not cleared before Merging. -/
theorem mode_reset_counterexample :
    entryField resFlat1.table "u1" "Circuit ID" = some "ID0"
    ∧ entryField resToggleActual.table "u1" "Circuit ID" = some "ID0"
    ∧ entryField resTogglePredicted.table "u1" "Circuit ID" = some "ID2"
    ∧ resToggleActual.table ≠ resTogglePredicted.table := by
  decide

/-- C4 (amended): there is no manual parent pool.  A router's
`manualPool` configuration key is ignored entirely (the processing result
is literally identical with any pool), and every processed PPP circuit
gets the parent `PLAN-{profile}-{router}` when `per_plan_node` is set and
`PPP-{router}` otherwise — the same parent for every circuit of the
cycle, with no rotation. -/
theorem ppp_parent_assignment (u : Bool) (g : ℕ → String) (r : RouterCfg)
    (snap : RouterSnap) (t : Table) (n : NCfg) (c : ℕ) (code : String)
    (sec : PppSecretR) (pool : List String) (hen : r.pppoeEnabled = true)
    (hmem : (code, sec) ∈ activeSecrets snap.secrets snap.active) :
    (∃ e', aget (process_pppoe_users u g r snap t n c).table code = some e'
      ∧ aget e' "Parent Node" = some (pppParent r sec))
    ∧ process_pppoe_users u g { r with manualPool := pool } snap t n c
        = process_pppoe_users u g r snap t n c := by
  refine ⟨?_, rfl⟩
  obtain ⟨e', h1, h2, _, _⟩ := process_ppp_self u g r snap t n c code sec
    hen hmem
  exact ⟨e', h1, h2⟩

/-- Witness for `ppp_parent_assignment` at a concrete router and user. -/
theorem ppp_parent_assignment_witness :
    ∃ e', aget (process_pppoe_users false genId rtPool snap3 [] [] 0).table
        "u1" = some e' ∧ aget e' "Parent Node" = some "PPP-R" := by
  exact (ppp_parent_assignment false genId rtPool snap3 [] [] 0 "u1"
    { name := "u1", callerId := "", address := "10.0.0.1",
      rateLimit := none, profile := none }
    ["PPPOE-X"] (by decide) (by decide)).1

/-- C4 counterexample: with pool `["PPPOE-A","PPPOE-B"]` configured and
three new PPP circuits in one cycle, the code assigns all three parents
`PPP-R` — not the round-robin `PPPOE-A, PPPOE-B, PPPOE-A` the claim
predicts. -/
theorem manual_pool_counterexample :
    rtPool.manualPool = ["PPPOE-A", "PPPOE-B"]
    ∧ entryField pState3.table "u1" "Parent Node" = some "PPP-R"
    ∧ entryField pState3.table "u2" "Parent Node" = some "PPP-R"
    ∧ entryField pState3.table "u3" "Parent Node" = some "PPP-R"
    ∧ entryField pState3.table "u1" "Parent Node" ≠ some "PPPOE-A" := by
  decide

/-- C5: evaluation at the failing input.  A cycle with no routers, no
static devices and an empty table performs no insert, update or deletion
(`anyUpdates = false`, nothing persisted), yet the LibreQoS reload
subprocess is still invoked — the reload call sits outside the
`if any_updates:` block.  A changed cycle persists and reloads as the
claim says; the no-change direction is the bug. -/
theorem reload_invoked_without_changes :
    emptyCycleRes.anyUpdates = false
    ∧ emptyCycleRes.persisted = false
    ∧ emptyCycleRes.reloadInvoked = true
    ∧ cycleRes1.anyUpdates = true
    ∧ cycleRes1.persisted = true
    ∧ cycleRes1.reloadInvoked = true
    ∧ ∀ (gen : ℕ → String) (c : ℕ) (t0 : Table) (n0 : NCfg)
        (inp : CycleInput),
        (runCycle gen c t0 n0 inp).reloadInvoked = true
        ∧ (runCycle gen c t0 n0 inp).persisted
            = (runCycle gen c t0 n0 inp).anyUpdates := by
  exact ⟨by decide, by decide, by decide, by decide, by decide, by decide,
    fun gen c t0 n0 inp => ⟨rfl, rfl⟩⟩

/-- C9 (amended): the stored comment is not always one of the four source
tags.  Entries created by the PPP processor carry `"PPP"`; entries created
by the hotspot processor carry `"HS"` (not `"Hotspot"`); the DHCP
processor writes the lease's host name as the comment whenever one is
present (else `"DHCP"`); a static entry created from the list gets the
record's own `Comment` value, defaulting to the empty string. -/
theorem comment_tags_by_source :
    (∀ (u : Bool) (g : ℕ → String) (r : RouterCfg) (snap : RouterSnap)
        (t : Table) (n : NCfg) (c : ℕ) (code : String) (sec : PppSecretR),
        r.pppoeEnabled = true →
        (code, sec) ∈ activeSecrets snap.secrets snap.active →
        aget t code = none →
        ∃ e', aget (process_pppoe_users u g r snap t n c).table code
            = some e' ∧ aget e' "Comment" = some "PPP")
    ∧ (∀ (g : ℕ → String) (r : RouterCfg) (st : PState) (user : HsUserR)
        (code : String), hsCode r user = some code →
        aget st.table code = none →
        ∃ e', aget (hsStep g r st user).table code = some e'
          ∧ aget e' "Comment" = some "HS")
    ∧ (∀ (g : ℕ → String) (r : RouterCfg) (st : PState) (lease : LeaseR)
        (code : String), dhcpCode lease = some code →
        ∃ e', aget (dhcpStep g r st lease).table code = some e'
          ∧ aget e' "Comment"
              = some (if lease.hostName ≠ "" then lease.hostName
                else "DHCP"))
    ∧ (∀ (g : ℕ → String) (st : SState) (device : Dict) (cn : String),
        staticCode device = some cn → aget st.table cn = none →
        ∃ e', aget (staticStep g st device).table cn = some e'
          ∧ aget e' "Comment" = some ((aget device "Comment").getD "")) := by
  refine ⟨?_, ?_, ?_, ?_⟩
  · intro u g r snap t n c code sec hen hmem hnone
    obtain ⟨e', h1, _, h3, _⟩ := process_ppp_self u g r snap t n c code sec
      hen hmem
    exact ⟨e', h1, h3 hnone⟩
  · intro g r st user code hc hnone
    obtain ⟨e', h1, h2, _⟩ := hsStep_self g r st user code hc
    exact ⟨e', h1, h2 hnone⟩
  · intro g r st lease code hc
    obtain ⟨e', h1, h2, _⟩ := dhcpStep_self g r st lease code hc
    exact ⟨e', h1, h2⟩
  · intro g st device cn hc hnone
    obtain ⟨e', h1, h2, _⟩ := staticStep_self g st device cn hc
    exact ⟨e', h1, h2 hnone⟩

/-- Witness for `comment_tags_by_source` at a concrete lease and a
concrete hotspot user. -/
theorem comment_tags_by_source_witness :
    (∃ e', aget (dhcpStep genId rtD pst0 leaseLaptop).table "DHCP-laptop"
        = some e' ∧ aget e' "Comment" = some "laptop")
    ∧ (∃ e', aget ((hsStep genId rtR pst0
          { macAddress := "AA:BB", address := "10.9.9.9",
            user := "joe" }).table) "HS-AABB" = some e'
        ∧ aget e' "Comment" = some "HS") := by
  constructor
  · have h := comment_tags_by_source.2.2.1 genId rtD pst0 leaseLaptop
      "DHCP-laptop" (by decide)
    simpa using h
  · exact comment_tags_by_source.2.1 genId rtR pst0
      { macAddress := "AA:BB", address := "10.9.9.9", user := "joe" }
      "HS-AABB" (by decide) (by decide)

/-- C9 counterexample: a DHCP lease reporting host name `laptop` stores
`laptop` itself as the entry's comment — not one of the four source tags
`PPP`, `Hotspot`, `DHCP`, `Static`. -/
theorem dhcp_hostname_comment_counterexample :
    entryField dState.table "DHCP-laptop" "Comment" = some "laptop"
    ∧ "laptop" ∉ (["PPP", "Hotspot", "DHCP", "Static"] : List String) := by
  decide

/-- C10 (amended): after the removal step every remaining circuit name
was observed this cycle by some processed source, and a router whose
connection fails contributes nothing to the cycle (its `routerStep` is
the identity) — so entries refreshed by no other source are deleted.  An
entry previously derived from the failed router survives only when
another enabled source observes the same circuit name. -/
theorem remaining_names_observed (gen : ℕ → String) (c : ℕ) (t0 : Table)
    (n0 : NCfg) (inp : CycleInput) :
    (∀ code, (aget (runCycle gen c t0 n0 inp).table code).isSome →
      code ∈ (runCycle gen c t0 n0 inp).allUsers)
    ∧ ∀ (u : Bool) (g' : ℕ → String) (st : MState) (cfg : RouterCfg),
        routerStep u g' st { cfg := cfg, conn := none } = st := by
  refine ⟨fun code h => ?_, fun u g' st cfg => rfl⟩
  exact (cycle_isSome_iff_mem_aux gen c t0 n0 inp code).mp h

/-- Witness for `remaining_names_observed`: in the failed-router cycle,
the surviving entry `alice` is indeed in the observed set, and skipping a
failed router is the identity on the loop state. -/
theorem remaining_names_observed_witness :
    "alice" ∈ c10Res2.allUsers
    ∧ routerStep false genId
        { table := [], ncfg := [], counter := 0, allUsers := [],
          anyUpdates := false } { cfg := rtA, conn := none }
      = { table := [], ncfg := [], counter := 0, allUsers := [],
          anyUpdates := false } := by
  constructor
  · exact (remaining_names_observed genId c10Res1.counter c10Res1.table
      c10Res1.ncfg c10Inp2).1 "alice" (by decide)
  · exact (remaining_names_observed genId 0 [] []
      { routers := [], staticDevices := [] }).2 false genId _ rtA

/-- C10 counterexample: `alice` was derived from router A (parent
`PPP-A`); in the next cycle router A's connection fails for the whole
cycle, yet her entry is not deleted — router B observes the same circuit
name and re-parents it to `PPP-B`. -/
theorem failed_router_counterexample :
    entryField c10Res1.table "alice" "Parent Node" = some "PPP-A"
    ∧ (aget c10Res2.table "alice").isSome = true
    ∧ entryField c10Res2.table "alice" "Parent Node" = some "PPP-B" := by
  decide

end UpdateCsv
